import Mathlib

/-!
Verification development for the open-navicat database client.

Shallow embedding of the SQL execution and connection-lifecycle subsystem:
`src/db/executor.py` (execute_sql, apply_updates, delete_row),
`src/db/connection.py` (parse_jdbc_url, ConnectionManager), and the
connection-directive extraction in `src/main_window.py` (on_run).

Strings are manipulated through their character lists so that every
definition evaluates by kernel reduction.  Wall-clock measurements
(elapsed seconds, the 30 s per-statement timeout, the 5 s connectivity
probe) and real I/O (sockets, files, threads) are outside the embedding;
the driver, the cancellation event and the reconnection probe are
modelled as explicit functional parameters.
-/

namespace CatDb

/-! ### Basic character and string utilities -/

/-- ASCII whitespace recognised by Python `str.strip` and the regex class
`\s` (space, tab, newline, carriage return, vertical tab, form feed). -/
def isPyWs (c : Char) : Bool :=
  c = ' ' ∨ c = '\t' ∨ c = '\n' ∨ c = '\r' ∨ c = '\x0b' ∨ c = '\x0c'

/-- Python `str.strip()` on a character list: drop whitespace from both ends. -/
def trimChars (l : List Char) : List Char :=
  ((l.dropWhile isPyWs).reverse.dropWhile isPyWs).reverse

/-- ASCII lower-casing of one character (Python `str.lower` restricted to
ASCII, which is all the source ever feeds it). -/
def lowerChar (c : Char) : Char :=
  if 65 ≤ c.toNat ∧ c.toNat ≤ 90 then Char.ofNat (c.toNat + 32) else c

/-- ASCII lower-casing of a character list. -/
def lowerList (l : List Char) : List Char := l.map lowerChar

/-- ASCII lower-casing of a string. -/
def lowerS (s : String) : String := String.mk (lowerList s.data)

/-- Split a character list on every occurrence of `sep`, like Python
`str.split(sep)`: `"".split(";") = [""]`, separators are not kept. -/
def splitOnChar (sep : Char) : List Char → List (List Char)
  | [] => [[]]
  | c :: t =>
    if c = sep then [] :: splitOnChar sep t
    else
      match splitOnChar sep t with
      | [] => [[c]]
      | g :: gs => (c :: g) :: gs

/-! ### Decimal rendering of naturals (Python `str(int)` on nonnegative values)

Used by the name-disambiguation loops (`f"{base} ({idx})"`) and the
bind-parameter names (`f"pk_{j}"`, `f"v_{i}"`).  A fuel-based structural
recursion is used so that terms reduce in the kernel; `natRepr n` runs
with fuel `n + 1`, which is always sufficient. -/

/-- Decimal digits of `n`, most significant first, with explicit fuel. -/
def natReprAux : Nat → Nat → List Char
  | 0, _ => []
  | fuel + 1, n =>
    if n < 10 then [Char.ofNat (48 + n)]
    else natReprAux fuel (n / 10) ++ [Char.ofNat (48 + n % 10)]

/-- Decimal rendering of a natural number as a character list. -/
def natRepr (n : Nat) : List Char := natReprAux (n + 1) n

/-- Decimal rendering of a natural number as a string. -/
def natReprS (n : Nat) : String := String.mk (natRepr n)

/-- Value of a digit list read back in base 10 (left inverse of `natRepr`). -/
def decVal (l : List Char) : Nat := l.foldl (fun a c => a * 10 + (c.toNat - 48)) 0

/-! ### Association lists (Python `dict` with insertion order) -/

/-- First value stored under key `k` (Python `d.get(k)` / `k in d`). -/
def lookupA {β : Type} (k : String) : List (String × β) → Option β
  | [] => none
  | (k', v) :: t => if k = k' then some v else lookupA k t

/-- Assignment `d[k] = v`: replace the value in place if the key exists,
otherwise append the new pair (Python dicts keep insertion order). -/
def insertA {β : Type} (k : String) (v : β) : List (String × β) → List (String × β)
  | [] => [(k, v)]
  | (k', v') :: t => if k = k' then (k', v) :: t else (k', v') :: insertA k v t

/-- Python `d.setdefault(k, v)`: insert only when the key is absent. -/
def setdefaultA {β : Type} (k : String) (v : β) (l : List (String × β)) : List (String × β) :=
  match lookupA k l with
  | some _ => l
  | none => l ++ [(k, v)]

/-- Python `d.pop(k, None)`: remove the first pair whose key is `k`. -/
def eraseA {β : Type} (k : String) : List (String × β) → List (String × β)
  | [] => []
  | (k', v') :: t => if k = k' then t else (k', v') :: eraseA k t

/-- Keys of an association list, in order. -/
def keysA {β : Type} (l : List (String × β)) : List String := l.map Prod.fst

/-! ### Execution Engine (`src/db/executor.py`, `execute_sql`)

The driver call `conn.exec_driver_sql(stmt)` is modelled by a pure
function `driver : String → Except String DriverOutcome` (an `Except.error`
is a driver exception); the `threading.Event` cancellation token is a
predicate `signal : Nat → Bool` on the index of the per-statement check
performed at the top of the loop.  The worker thread, the 30-second
timeout and the elapsed-time measurement are real-time behaviour outside
the embedding.  `fetchmany(row_limit + 1)` returns the first
`row_limit + 1` rows of the result set (`List.take`); the `fetchall`
fallback yields the same list when `fetchmany` is unsupported. -/

/-- Opaque cell values of a result row. -/
inductive Val where
  | str (s : String)
  | int (n : Int)
  | null
deriving DecidableEq, Repr

/-- One execution result per statement: `(columns, rows, elapsed, truncated)`
without the wall-clock component. -/
structure ExecResult where
  columns : List String
  rows : List (List Val)
  truncated : Bool
deriving DecidableEq, Repr

/-- Outcome of one driver call: either a row set (`res.returns_rows`) with
its full sequence of available rows, or a mutation/DDL row count. -/
inductive DriverOutcome where
  | rowSet (cols : List String) (allRows : List (List Val))
  | rowcount (n : Int)
deriving DecidableEq, Repr

/-- Errors surfaced by `execute_sql` (the timeout variant is real-time and
not modelled). -/
inductive ExecError where
  | canceled
  | statementError (stmt : String) (msg : String)
deriving DecidableEq, Repr

instance {ε α : Type} [DecidableEq ε] [DecidableEq α] : DecidableEq (Except ε α) := fun x y =>
  match x, y with
  | .ok a, .ok b =>
    if h : a = b then .isTrue (by rw [h]) else .isFalse (by intro hh; cases hh; exact h rfl)
  | .ok _, .error _ => .isFalse (by intro hh; cases hh)
  | .error _, .ok _ => .isFalse (by intro hh; cases hh)
  | .error a, .error b =>
    if h : a = b then .isTrue (by rw [h]) else .isFalse (by intro hh; cases hh; exact h rfl)

/-- Statement splitting:
`statements = [s.strip() for s in sql.split(";") if s.strip()]`. -/
def splitStatements (sql : String) : List String :=
  ((splitOnChar ';' sql.data).map (fun l => String.mk (trimChars l))).filter
    (fun s => s ≠ "")

/-- Per-statement result shaping (`executor.py` lines 38–57): a row set is
fetched up to `row_limit + 1` rows, truncated to `row_limit` with the
`truncated` flag when more arrived; a non-row-returning statement yields
the single-row `"Affected rows: …"` message with `truncated = False`. -/
def runStatement (outcome : DriverOutcome) (rowLimit : Nat) : ExecResult :=
  match outcome with
  | .rowSet cols allRows =>
    if (allRows.take (rowLimit + 1)).length > rowLimit then
      { columns := cols
        rows := (allRows.take (rowLimit + 1)).take rowLimit
        truncated := true }
    else
      { columns := cols
        rows := allRows.take (rowLimit + 1)
        truncated := false }
  | .rowcount n =>
    { columns := ["Message"]
      rows := [[Val.str ("Affected rows: " ++ toString n)]]
      truncated := false }

/-- Statement loop of `execute_sql`: before each statement the stop event
is checked (raising `Execution canceled`), then the statement is issued;
a driver error aborts the call.  Returns the call outcome together with
the trace of statements actually issued to the driver. -/
def runStatements (driver : String → Except String DriverOutcome) (signal : Nat → Bool)
    (rowLimit : Nat) : Nat → List String → Except ExecError (List ExecResult) × List String
  | _, [] => (.ok [], [])
  | i, stmt :: rest =>
    if signal i then (.error .canceled, [])
    else
      match driver stmt with
      | .error msg => (.error (.statementError stmt msg), [stmt])
      | .ok outcome =>
        let next := runStatements driver signal rowLimit (i + 1) rest
        (match next.1 with
         | .ok results => .ok (runStatement outcome rowLimit :: results)
         | .error e => .error e,
         stmt :: next.2)

/-- Model of `execute_sql(engine, sql, stop_event, row_limit)`: split the
text into statements and run them in order on one connection. -/
def execute_sql (driver : String → Except String DriverOutcome) (signal : Nat → Bool)
    (sql : String) (rowLimit : Nat) : Except ExecError (List ExecResult) × List String :=
  runStatements driver signal rowLimit 0 (splitStatements sql)

/-! ### Password obfuscation (`_save_config` / `_load_config`)

`_save_config` writes every config record after replacing a string
`password` by `codecs.encode(pw, "rot_13")`; `_load_config` replaces it
by `codecs.decode(pw, "rot_13")` after reading.  Both codec directions
are the same letter rotation.  The JSON file I/O, the multi-encoding
retry and the `.bak` sidecar are not modelled; the embedding covers the
transformation applied to the in-memory name→record mapping. -/

/-- One character of the `rot_13` codec: rotate `a`–`z` and `A`–`Z` by 13,
leave everything else unchanged. -/
def rot13Char (c : Char) : Char :=
  if 97 ≤ c.toNat ∧ c.toNat ≤ 122 then Char.ofNat (97 + (c.toNat - 97 + 13) % 26)
  else if 65 ≤ c.toNat ∧ c.toNat ≤ 90 then Char.ofNat (65 + (c.toNat - 65 + 13) % 26)
  else c

/-- The `rot_13` codec on a whole string. -/
def rot13 (s : String) : String := String.mk (s.data.map rot13Char)

/-- Persisted connection record, with the fields `add_connection` and
`add_sqlite_connection` write into `self._configs`. -/
structure ConfigV where
  ctype : String
  driver : Option String := none
  path : Option String := none
  host : Option String := none
  port : Option String := none
  user : Option String := none
  password : Option String := none
  database : Option String := none
  schema : Option String := none
  params : List (String × String) := []
deriving DecidableEq, Repr

/-- Transformation `_save_config` applies to the name→record mapping
before writing: rot13-encode each string password. -/
def save_config (configs : List (String × ConfigV)) : List (String × ConfigV) :=
  configs.map (fun nc => (nc.1, { nc.2 with password := nc.2.password.map rot13 }))

/-- Transformation `_load_config` applies to the mapping read back from
disk: rot13-decode each string password (`codecs.decode(·, "rot_13")` is
the same rotation as the encoding direction). -/
def load_config (data : List (String × ConfigV)) : List (String × ConfigV) :=
  data.map (fun nc => (nc.1, { nc.2 with password := nc.2.password.map rot13 }))

/-! ### Mutation Applier (`apply_updates`, `delete_row`)

Statement construction is embedded; issuing the statements and the
driver-reported row counts are I/O.  The WHERE-building loop is textually
identical in `apply_updates` (executor.py lines 137–144) and `delete_row`
(lines 161–169) and is shared here as `buildPkClauses`. -/

/-- One WHERE-clause conjunct: `sa_column(pcol).is_(None)` or
`sa_column(pcol) == bindparam(pname)`. -/
inductive WhereClause (α : Type) where
  | isNull (col : String)
  | eqParam (col : String) (param : String)
deriving DecidableEq, Repr

/-- The WHERE loop over the primary-key mapping, starting at index `j`:
a `None` value produces an `IS NULL` test, any other value an equality
against bind parameter `pk_j` whose value is recorded in the parameter
mapping. -/
def buildPkClauses {α : Type} : Nat → List (String × Option α) → List (WhereClause α) × List (String × α)
  | _, [] => ([], [])
  | j, (pcol, pval) :: rest =>
    match pval with
    | none => (.isNull pcol :: (buildPkClauses (j + 1) rest).1, (buildPkClauses (j + 1) rest).2)
    | some v =>
      (.eqParam pcol ("pk_" ++ natReprS j) :: (buildPkClauses (j + 1) rest).1,
       ("pk_" ++ natReprS j, v) :: (buildPkClauses (j + 1) rest).2)

/-- The SET loop over the changes mapping: column `col` is set to bind
parameter `v_i` whose value is recorded in the parameter mapping. -/
def buildValues {α : Type} : Nat → List (String × α) → List (String × String) × List (String × α)
  | _, [] => ([], [])
  | i, (col, val) :: rest =>
    ((col, "v_" ++ natReprS i) :: (buildValues (i + 1) rest).1,
     ("v_" ++ natReprS i, val) :: (buildValues (i + 1) rest).2)

/-- One pending edit consumed by `apply_updates`: a dict with keys
`'changes'` and `'pk'`. -/
structure PendingItem (α : Type) where
  changes : List (String × α)
  pk : List (String × Option α)
deriving DecidableEq, Repr

/-- A parameterized UPDATE statement as built by the `apply_updates` loop. -/
structure SqlUpdate (α : Type) where
  table : String
  setValues : List (String × String)
  whereClauses : List (WhereClause α)
  params : List (String × α)
deriving DecidableEq, Repr

/-- A parameterized DELETE statement as built by `delete_row`. -/
structure SqlDelete (α : Type) where
  table : String
  whereClauses : List (WhereClause α)
  params : List (String × α)
deriving DecidableEq, Repr

/-- Loop body of `apply_updates` for one pending item: skipped (`continue`)
when the item has no changes or no primary-key values. -/
def buildUpdate {α : Type} (table : String) (item : PendingItem α) : Option (SqlUpdate α) :=
  if item.changes.isEmpty || item.pk.isEmpty then none
  else
    some { table := table
           setValues := (buildValues 0 item.changes).1
           whereClauses := (buildPkClauses 0 item.pk).1
           params := (buildValues 0 item.changes).2 ++ (buildPkClauses 0 item.pk).2 }

/-- Model of `apply_updates(engine, table_name, pending_items)`: the
sequence of UPDATE statements executed inside one transaction. -/
def apply_updates {α : Type} (table : String) (pending_items : List (PendingItem α)) :
    List (SqlUpdate α) :=
  pending_items.filterMap (buildUpdate table)

/-- Model of `delete_row(engine, table_name, pk)`: `none` when `pk` is
empty (the function returns 0 without touching the database). -/
def delete_row {α : Type} (table : String) (pk : List (String × Option α)) :
    Option (SqlDelete α) :=
  if pk.isEmpty then none
  else some { table := table
              whereClauses := (buildPkClauses 0 pk).1
              params := (buildPkClauses 0 pk).2 }

/-! ### Descriptor Parser (`parse_jdbc_url`, connection.py lines 17–120)

`urllib.parse.urlparse` / `parse_qs` / `unquote` are embedded for the
descriptor shapes the function handles (`scheme://netloc/path?query`);
percent-escapes decode byte-wise (multi-byte UTF-8 escapes are outside
the model), `parse_qs` splits pairs on `&` as in current CPython, and
Python `int()` is embedded for ASCII decimal literals with an optional
sign and underscore digit separators. -/

/-- ASCII decimal digit test (`0`–`9`). -/
def isDigitC (c : Char) : Bool := 48 ≤ c.toNat ∧ c.toNat ≤ 57

/-- Digit run of a Python integer literal, allowing single underscores
between digits, accumulating the value. -/
def pyIntDigits (acc : Nat) : List Char → Option Nat
  | [] => some acc
  | '_' :: c :: t => if isDigitC c then pyIntDigits (acc * 10 + (c.toNat - 48)) t else none
  | c :: t => if isDigitC c then pyIntDigits (acc * 10 + (c.toNat - 48)) t else none

/-- Python `int(s)` for decimal text: surrounding whitespace stripped,
optional sign, at least one digit, single underscores allowed between
digits; `none` models the `ValueError` branch. -/
def pyInt (s : String) : Option Int :=
  match trimChars s.data with
  | [] => none
  | '+' :: ds =>
    (match ds with
     | [] => none
     | c :: t => if isDigitC c then (pyIntDigits (c.toNat - 48) t).map Int.ofNat else none)
  | '-' :: ds =>
    (match ds with
     | [] => none
     | c :: t => if isDigitC c then (pyIntDigits (c.toNat - 48) t).map (fun n => -(n : Int)) else none)
  | c :: t => if isDigitC c then (pyIntDigits (c.toNat - 48) t).map Int.ofNat else none

/-- Value of one hexadecimal digit. -/
def hexVal (c : Char) : Option Nat :=
  if 48 ≤ c.toNat ∧ c.toNat ≤ 57 then some (c.toNat - 48)
  else if 97 ≤ c.toNat ∧ c.toNat ≤ 102 then some (c.toNat - 87)
  else if 65 ≤ c.toNat ∧ c.toNat ≤ 70 then some (c.toNat - 55)
  else none

/-- Percent-escape decoding of `urllib.parse.unquote` (byte-wise). -/
def percentDecode : List Char → List Char
  | [] => []
  | '%' :: a :: b :: t =>
    (match hexVal a, hexVal b with
     | some x, some y => Char.ofNat (x * 16 + y) :: percentDecode t
     | _, _ => '%' :: percentDecode (a :: b :: t))
  | c :: t => c :: percentDecode t

/-- `urllib.parse.unquote` on a string. -/
def unquote (s : String) : String := String.mk (percentDecode s.data)

/-- `urllib.parse.unquote_plus`: `+` becomes a space, then percent-decoding. -/
def unquotePlus (l : List Char) : List Char :=
  percentDecode (l.map (fun c => if c = '+' then ' ' else c))

/-- Split at the first occurrence of `sep` (Python `split(sep, 1)`),
`none` when `sep` does not occur. -/
def splitFirst (sep : Char) : List Char → Option (List Char × List Char)
  | [] => none
  | c :: t =>
    if c = sep then some ([], t)
    else
      match splitFirst sep t with
      | none => none
      | some (a, b) => some (c :: a, b)

/-- Split at the last occurrence of `sep` (Python `rsplit(sep, 1)`). -/
def splitLast (sep : Char) (l : List Char) : Option (List Char × List Char) :=
  match splitFirst sep l.reverse with
  | some (a, b) => some (b.reverse, a.reverse)
  | none => none

/-- Model of `urllib.parse.parse_qs(query)` composed with
`{k: v[0] for k, v in raw_qs.items()}` (connection.py lines 71–72):
`k=v` items split on `&`, blank values and bare keys dropped, keys and
values decoded with `unquote_plus`, first value of each key kept. -/
def parseQs (query : List Char) : List (String × String) :=
  (splitOnChar '&' query).foldl
    (fun acc item =>
      match splitFirst '=' item with
      | none => acc
      | some (k, v) =>
        if v = [] then acc
        else
          match lookupA (String.mk (unquotePlus k)) acc with
          | some _ => acc
          | none => acc ++ [(String.mk (unquotePlus k), String.mk (unquotePlus v))])
    []

/-- Components returned by `urllib.parse.urlparse` that the parser reads. -/
structure UrlParts where
  scheme : String
  netloc : List Char
  path : List Char
  query : List Char
deriving DecidableEq, Repr

/-- ASCII letter test. -/
def isAlphaC (c : Char) : Bool :=
  (65 ≤ c.toNat ∧ c.toNat ≤ 90) ∨ (97 ≤ c.toNat ∧ c.toNat ≤ 122)

/-- Characters allowed in a URL scheme after the leading letter. -/
def isSchemeChar (c : Char) : Bool :=
  isAlphaC c ∨ (48 ≤ c.toNat ∧ c.toNat ≤ 57) ∨ c = '+' ∨ c = '-' ∨ c = '.'

/-- Model of `urllib.parse.urlparse`: a valid scheme before the first `:`
is lower-cased and split off, the fragment after `#` is discarded, a
`//`-led remainder yields the netloc up to the next `/` or `?`, and the
query follows the first `?`. -/
def urlparseModel (raw : List Char) : UrlParts :=
  let p1 :=
    match splitFirst ':' raw with
    | some (s, r) =>
      (match s with
       | [] => (([] : List Char), raw)
       | c :: _ => if isAlphaC c ∧ s.all isSchemeChar then (lowerList s, r) else ([], raw))
    | none => ([], raw)
  let nofrag :=
    match splitFirst '#' p1.2 with
    | some (a, _) => a
    | none => p1.2
  match nofrag with
  | '/' :: '/' :: r =>
    let netloc := r.takeWhile (fun c => ¬ (c = '/' ∨ c = '?'))
    let after := r.drop netloc.length
    (match splitFirst '?' after with
     | some (a, b) => { scheme := String.mk p1.1, netloc := netloc, path := a, query := b }
     | none => { scheme := String.mk p1.1, netloc := netloc, path := after, query := [] })
  | other =>
    (match splitFirst '?' other with
     | some (a, b) => { scheme := String.mk p1.1, netloc := [], path := a, query := b }
     | none => { scheme := String.mk p1.1, netloc := [], path := other, query := [] })

/-- Truthiness of an optional string (Python `if params.get(k):`). -/
def truthy (o : Option String) : Bool :=
  match o with
  | some s => ¬ (s = "")
  | none => false

/-- Host and credential parsing of `parse_jdbc_url` (lines 39–64): the
userinfo is split off at the last `@` and at its first `:` into
percent-decoded username/password; the hostinfo is split at its first
`:` into host and port, and a port rejected by `int()` becomes `None`.
Returns `(username, password, host, port)`. -/
def parseNetloc (netloc : List Char) :
    Option String × Option String × Option String × Option Int :=
  if netloc = [] then (none, none, none, none)
  else
    let uh :=
      match splitLast '@' netloc with
      | some (u, h) => ((some u : Option (List Char)), h)
      | none => (none, netloc)
    let up :=
      match uh.1 with
      | none => ((none : Option String), (none : Option String))
      | some ui =>
        match splitFirst ':' ui with
        | some (u, p) => (some (String.mk (percentDecode u)), some (String.mk (percentDecode p)))
        | none => (some (String.mk (percentDecode ui)), none)
    match splitFirst ':' uh.2 with
    | some (h, p) => (up.1, up.2, some (String.mk h), pyInt (String.mk p))
    | none => (up.1, up.2, some (String.mk uh.2), none)

/-- Schema capture of `parse_jdbc_url` lines 74–79: `currentSchema` wins
over `search_path`, empty values are falsy. -/
def jdbcSchemaVal (params0 : List (String × String)) : Option String :=
  if truthy (lookupA "currentSchema" params0) then lookupA "currentSchema" params0
  else if truthy (lookupA "search_path" params0) then lookupA "search_path" params0
  else none

/-- Lines 83–84: `ssl=false` (case-insensitive value) adds `sslmode=disable`. -/
def jdbcSslStep (p : List (String × String)) : List (String × String) :=
  if lowerS ((lookupA "ssl" p).getD "") = "false" then insertA "sslmode" "disable" p else p

/-- Lines 86–88: a truthy `currentSchema` is `setdefault`-folded into
`options` as `-c search_path=<value>`. -/
def jdbcSchemaOptStep (p : List (String × String)) : List (String × String) :=
  if truthy (lookupA "currentSchema" p) then
    setdefaultA "options" ("-c search_path=" ++ (lookupA "currentSchema" p).getD "") p
  else p

/-- Key predicate of the timezone scan (line 94). -/
def jdbcTzPred (kv : String × String) : Bool :=
  lowerS kv.1 = "timezone" || lowerS kv.1 = "servertimezone"

/-- Lines 91–105: pop the first case-insensitive `timezone`/`servertimezone`
key; if its value is truthy, append `-c TimeZone=<value>` to a truthy
existing `options` (space-joined) or set `options` to it. -/
def jdbcTzStep (p : List (String × String)) : List (String × String) :=
  match p.find? jdbcTzPred with
  | none => p
  | some kv =>
    if ¬ (kv.2 = "") then
      match lookupA "options" (eraseA kv.1 p) with
      | some opts =>
        if ¬ (opts = "") then
          insertA "options" (opts ++ " " ++ ("-c TimeZone=" ++ kv.2)) (eraseA kv.1 p)
        else insertA "options" ("-c TimeZone=" ++ kv.2) (eraseA kv.1 p)
      | none => insertA "options" ("-c TimeZone=" ++ kv.2) (eraseA kv.1 p)
    else eraseA kv.1 p

/-- Lines 107–109: pop the JDBC-only keys, in source order `currentSchema`,
`ssl`, `characterEncoding`, `TimeZone`, `serverTimezone`. -/
def jdbcPopStep (p : List (String × String)) : List (String × String) :=
  eraseA "serverTimezone" (eraseA "TimeZone" (eraseA "characterEncoding"
    (eraseA "ssl" (eraseA "currentSchema" p))))

/-- Parameter normalization of `parse_jdbc_url` (lines 74–109): the four
mutation blocks applied in source order to the parameter bag, together
with the captured schema. -/
def normalizeJdbcParams (params0 : List (String × String)) :
    List (String × String) × Option String :=
  (jdbcPopStep (jdbcTzStep (jdbcSchemaOptStep (jdbcSslStep params0))), jdbcSchemaVal params0)

/-- Normalized fields returned by `parse_jdbc_url`. -/
structure JdbcResult where
  conn_type : String
  host : Option String
  port : Option Int
  database : String
  username : Option String
  password : Option String
  params : List (String × String)
  schema : Option String
deriving DecidableEq, Repr

/-- Model of `parse_jdbc_url(jdbc_url)`: reject a descriptor without the
`jdbc:` marker, urlparse the remainder, classify the scheme, parse the
netloc, take the database from the path, and normalize the query
parameters. -/
def parse_jdbc_url (jdbc_url : String) : Except String JdbcResult :=
  if List.isPrefixOf "jdbc:".data jdbc_url.data then
    let parts := urlparseModel (jdbc_url.data.drop 5)
    let scheme := lowerS parts.scheme
    let conn_type :=
      if List.isPrefixOf "postgresql".data scheme.data then "postgresql"
      else if List.isPrefixOf "mysql".data scheme.data then "mysql"
      else
        match splitOnChar '+' scheme.data with
        | [] => ""
        | s :: _ => String.mk s
    let np := parseNetloc parts.netloc
    let database :=
      match parts.path with
      | '/' :: rest => String.mk rest
      | other => String.mk other
    let pr := normalizeJdbcParams (parseQs parts.query)
    .ok { conn_type := conn_type, host := np.2.2.1, port := np.2.2.2
          database := database, username := np.1, password := np.2.1
          params := pr.1, schema := pr.2 }
  else .error "Not a JDBC URL"

/-! ### Connection Registry (`ConnectionManager`, connection.py)

Engines are represented by their construction data (`create_engine` is
I/O); the reconstruction loop of `get_connection` — password candidates,
engine building and the 5-second background connectivity probe — is
abstracted into a `reconstruct` oracle, and `engine.dispose()` is
represented by returning the disposed handles.  `os.path.abspath` is the
identity on the (absolute) paths used here and `os.path.basename` is
embedded as `pyBasename`. -/

/-- Engine stand-in: the data `create_engine` was called with.  `url` is
set for engines built from a plain URL string (SQLite, legacy configs);
`schemaListener` records the `SET search_path` connect listener. -/
structure EngineV where
  drivername : String := ""
  username : Option String := none
  password : Option String := none
  host : Option String := none
  port : Option Int := none
  database : Option String := none
  query : List (String × String) := []
  url : Option String := none
  schemaListener : Option String := none
deriving DecidableEq, Repr

/-- In-memory registry state: `self._engines` and `self._configs`. -/
structure ConnectionManager where
  engines : List (String × EngineV)
  configs : List (String × ConfigV)
deriving DecidableEq, Repr

/-- `os.path.basename` for POSIX paths. -/
def pyBasename (path : String) : String :=
  match splitLast '/' path.data with
  | some (_, b) => String.mk b
  | none => path

/-- One candidate of the collision loop: `f"{base} ({idx})"`. -/
def candName (base : String) (i : Nat) : String :=
  base ++ " (" ++ natReprS i ++ ")"

/-- The `while name in taken: name = f"{base} ({idx})"; idx += 1` loop
with explicit fuel; `taken.length + 1` candidates always suffice. -/
def findFreeFrom (taken : List String) (base : String) : Nat → Nat → String
  | 0, i => candName base i
  | fuel + 1, i =>
    if candName base i ∈ taken then findFreeFrom taken base fuel (i + 1)
    else candName base i

/-- Name disambiguation of `add_sqlite_connection` (lines 252–257) and
`add_connection` (lines 412–418): keep `base` unless taken, otherwise the
first free `base (i)` starting from `i = 1`. -/
def uniqueName (taken : List String) (base : String) : String :=
  if base ∈ taken then findFreeFrom taken base (taken.length + 1) 1 else base

/-- Model of `add_sqlite_connection(path)`: file existence is the
`pathExists` argument (filesystem I/O); the collision check consults only
the live-engines map, and both maps are then assigned at the chosen name. -/
def add_sqlite_connection (m : ConnectionManager) (path : String) (pathExists : Bool) :
    Except String (ConnectionManager × String) :=
  if ¬ pathExists then .error ("SQLite file not found: " ++ path)
  else
    .ok ({ engines := insertA (uniqueName (keysA m.engines) ("SQLite: " ++ pyBasename path))
              { url := some ("sqlite:///" ++ path) } m.engines
           configs := insertA (uniqueName (keysA m.engines) ("SQLite: " ++ pyBasename path))
              { ctype := "sqlite", path := some path } m.configs },
          uniqueName (keysA m.engines) ("SQLite: " ++ pyBasename path))

/-- Alias normalization of `add_connection` (lines 273–276):
`username` → `user` and `pwd` → `password` when the canonical key is absent. -/
def normalizeAliases (kwargs : List (String × String)) : List (String × String) :=
  let k1 :=
    match lookupA "username" kwargs, lookupA "user" kwargs with
    | some v, none => insertA "user" v (eraseA "username" kwargs)
    | _, _ => kwargs
  match lookupA "pwd" k1, lookupA "password" k1 with
  | some v, none => insertA "password" v (eraseA "pwd" k1)
  | _, _ => k1

/-- The `value or None` coercion applied to user/password/database
(lines 330–333): an empty string becomes `None`. -/
def orNone (o : Option String) : Option String :=
  match o with
  | some s => if s = "" then none else some s
  | none => none

/-- `host = kwargs.get("host", "localhost")` followed by `or None`. -/
def hostOf (kw : List (String × String)) : Option String :=
  match lookupA "host" kw with
  | some s => if s = "" then none else some s
  | none => some "localhost"

/-- Driver resolution and kind validation (lines 335–347): returns
`(driver, drivername, default port)` or the `Unsupported connection type`
error. -/
def resolveDriver (conn_type : String) (kw : List (String × String)) :
    Except String (String × String × String) :=
  if conn_type = "postgresql" then
    .ok ((lookupA "driver" kw).getD "psycopg2",
         "postgresql+" ++ (lookupA "driver" kw).getD "psycopg2", "5432")
  else if conn_type = "mysql" then
    .ok ((lookupA "driver" kw).getD "pymysql",
         "mysql+" ++ (lookupA "driver" kw).getD "pymysql", "3306")
  else .error ("Unsupported connection type: " ++ conn_type)

/-- Port handling: the kind's default is substituted for an absent port
(lines 338–345), and `URL.create` receives `int(port) if port else None`
(line 404) — an unparsable port makes the construction fail with the
`Invalid connection parameters` error. -/
def resolvePort (portRaw : Option String) (defPort : String) : Except String (Option Int) :=
  if (portRaw.getD defPort) = "" then .ok none
  else
    match pyInt (portRaw.getD defPort) with
    | some n => .ok (some n)
    | none => .error "Invalid connection parameters: invalid port"

/-- Extra keyword arguments collected as query parameters (lines 352–358). -/
def queryParams0 (kw : List (String × String)) : List (String × String) :=
  kw.filter (fun kv =>
    ¬ (kv.1 = "host" ∨ kv.1 = "port" ∨ kv.1 = "user" ∨ kv.1 = "password"
       ∨ kv.1 = "database" ∨ kv.1 = "driver" ∨ kv.1 = "jdbc"))

/-- Character class `[\w",]` of the `search_path` regex. -/
def isWordQuoteComma (c : Char) : Bool :=
  isAlphaC c ∨ isDigitC c ∨ c = '_' ∨ c = '"' ∨ c = ','

/-- One anchored attempt of `re.search(r"search_path\s*=\s*([\w\",]+)", s)`. -/
def matchSearchPathAt (l : List Char) : Option (List Char) :=
  if List.isPrefixOf "search_path".data l then
    match (l.drop 11).dropWhile isPyWs with
    | '=' :: r2 =>
      (match (r2.dropWhile isPyWs).takeWhile isWordQuoteComma with
       | [] => none
       | v => some v)
    | _ => none
  else none

/-- Leftmost match of the `search_path` regex group. -/
def regexSearchPathVal : List Char → Option (List Char)
  | [] => none
  | c :: t =>
    match matchSearchPathAt (c :: t) with
    | some v => some v
    | none => regexSearchPathVal t

/-- Python `.strip('"')` composed with `.strip()` on a whitespace-free
match: drop double quotes from both ends. -/
def stripQuotes (l : List Char) : List Char :=
  ((l.dropWhile (fun c => c = '"')).reverse.dropWhile (fun c => c = '"')).reverse

/-- First truthy schema-like keyword argument (`schema`, `search_path`,
`currentSchema`), used both for the schema detection (lines 366–370) and
for the connect-time search-path listener (lines 425–431). -/
def kwargsSchemaVal (kw : List (String × String)) : Option String :=
  if truthy (lookupA "schema" kw) then lookupA "schema" kw
  else if truthy (lookupA "search_path" kw) then lookupA "search_path" kw
  else if truthy (lookupA "currentSchema" kw) then lookupA "currentSchema" kw
  else none

/-- PostgreSQL schema handling of `add_connection` (lines 360–397):
detect a schema from the keyword arguments, the query parameters or an
existing `options` string; fold it into `options`; then remove the
schema-like keys from the query parameters.  Returns the updated query
parameters and the detected `schema_val`. -/
def pgQueryTransform (kw query_params : List (String × String)) :
    List (String × String) × Option String :=
  let schema_val : Option String :=
    match kwargsSchemaVal kw with
    | some v => some v
    | none =>
      if truthy (lookupA "schema" query_params) then lookupA "schema" query_params
      else if truthy (lookupA "search_path" query_params) then lookupA "search_path" query_params
      else if truthy (lookupA "currentSchema" query_params) then lookupA "currentSchema" query_params
      else
        match lookupA "options" query_params with
        | some opts => (regexSearchPathVal opts.data).map (fun v => String.mk (stripQuotes v))
        | none => none
  let qp1 :=
    match schema_val with
    | some sv =>
      (match lookupA "options" query_params with
       | some opts =>
         if ¬ (opts = "") then
           insertA "options" (opts ++ " " ++ ("-c search_path=" ++ sv)) query_params
         else insertA "options" ("-c search_path=" ++ sv) query_params
       | none => insertA "options" ("-c search_path=" ++ sv) query_params)
    | none => query_params
  (eraseA "currentSchema" (eraseA "search_path" (eraseA "schema" qp1)), schema_val)

/-- Query parameters and `schema_val` after the kind-specific transform
(the PostgreSQL block runs only for `conn_type = "postgresql"`; for other
kinds `schema_val` stays undefined, modelled as `none`). -/
def pgPair (conn_type : String) (kw qp0 : List (String × String)) :
    List (String × String) × Option String :=
  if conn_type = "postgresql" then pgQueryTransform kw qp0 else (qp0, none)

/-- Resolution of the persisted `schema` (lines 471–495): explicit
`schema` kwarg, then the PostgreSQL-detected `schema_val`, then the
(already transformed) query parameters, then the `options` regex. -/
def finalSchema (kw : List (String × String)) (schema_val : Option String)
    (qp : List (String × String)) : Option String :=
  if truthy (lookupA "schema" kw) then lookupA "schema" kw
  else if truthy schema_val then schema_val
  else if truthy (lookupA "schema" qp) then lookupA "schema" qp
  else if truthy (lookupA "search_path" qp) then lookupA "search_path" qp
  else if truthy (lookupA "currentSchema" qp) then lookupA "currentSchema" qp
  else if truthy (lookupA "options" qp) then
    (regexSearchPathVal ((lookupA "options" qp).getD "").data).map
      (fun v => String.mk (stripQuotes v))
  else none

/-- The engine `add_connection` builds via `URL.create`/`create_engine`
(lines 399–448). -/
def mkEngine (conn_type : String) (kw : List (String × String))
    (di : String × String × String) (portv : Option Int) : EngineV :=
  { drivername := di.2.1
    username := orNone (lookupA "user" kw)
    password := orNone (lookupA "password" kw)
    host := hostOf kw
    port := portv
    database := orNone (lookupA "database" kw)
    query := (pgPair conn_type kw (queryParams0 kw)).1
    schemaListener := if conn_type = "postgresql" then kwargsSchemaVal kw else none }

/-- The config record `add_connection` persists (lines 460–504):
raw `host`/`port`/`database` keyword values, the `or None` user and
password, the transformed query parameters, and the resolved schema
(`final_schema` when truthy, else the raw `schema` keyword). -/
def mkConfig (conn_type : String) (kw : List (String × String))
    (di : String × String × String) : ConfigV :=
  { ctype := conn_type
    driver := some di.1
    host := lookupA "host" kw
    port := lookupA "port" kw
    user := orNone (lookupA "user" kw)
    password := orNone (lookupA "password" kw)
    database := lookupA "database" kw
    schema :=
      if truthy (finalSchema kw (pgPair conn_type kw (queryParams0 kw)).2
          (pgPair conn_type kw (queryParams0 kw)).1) then
        finalSchema kw (pgPair conn_type kw (queryParams0 kw)).2
          (pgPair conn_type kw (queryParams0 kw)).1
      else lookupA "schema" kw
    params := (pgPair conn_type kw (queryParams0 kw)).1 }

/-- Model of `add_connection(name, conn_type, **kwargs)` for string
keyword arguments.  The JDBC branch (lines 279–301) only pre-populates
absent kwargs from `parse_jdbc_url` before this logic runs, so `kwargs0`
stands for the post-merge keyword mapping.  The display name is
disambiguated against the union of live engines and persisted configs,
then both maps are assigned at it. -/
def add_connection (m : ConnectionManager) (name conn_type : String)
    (kwargs0 : List (String × String)) : Except String (ConnectionManager × String) :=
  match resolveDriver conn_type (normalizeAliases kwargs0) with
  | .error e => .error e
  | .ok di =>
    match resolvePort (lookupA "port" (normalizeAliases kwargs0)) di.2.2 with
    | .error e => .error e
    | .ok portv =>
      .ok ({ engines := insertA (uniqueName (keysA m.engines ++ keysA m.configs) name)
                (mkEngine conn_type (normalizeAliases kwargs0) di portv) m.engines
             configs := insertA (uniqueName (keysA m.engines ++ keysA m.configs) name)
                (mkConfig conn_type (normalizeAliases kwargs0) di) m.configs },
            uniqueName (keysA m.engines ++ keysA m.configs) name)

/-- Model of `get_connection(name)`: cached engines are returned directly;
a persisted config without a live engine goes through the reconstruction
attempt (abstracted by the `reconstruct` oracle covering the password
candidates and the bounded-time probe); otherwise, and when
reconstruction fails, the call raises the
`Connection '…' is not available` error. -/
def get_connection (m : ConnectionManager) (name : String)
    (reconstruct : ConfigV → Option EngineV) : Except String (EngineV × ConnectionManager) :=
  match lookupA name m.engines with
  | some e => .ok (e, m)
  | none =>
    match lookupA name m.configs with
    | some cfg =>
      (match reconstruct cfg with
       | some e => .ok (e, { m with engines := insertA name e m.engines })
       | none => .error ("Connection '" ++ name ++ "' is not available (engine was not created)"))
    | none => .error ("Connection '" ++ name ++ "' is not available (engine was not created)")

/-- Code-point comparison of strings, as Python compares `str` values. -/
def leChars : List Char → List Char → Bool
  | [], _ => true
  | _ :: _, [] => false
  | a :: as_, b :: bs =>
    if a.toNat < b.toNat then true
    else if b.toNat < a.toNat then false
    else leChars as_ bs

/-- Insertion into a sorted list of names. -/
def insertSorted (x : String) : List String → List String
  | [] => [x]
  | y :: t => if leChars x.data y.data then x :: y :: t else y :: insertSorted x t

/-- Insertion sort standing in for Python `sorted` on strings. -/
def sortS (l : List String) : List String := l.foldr insertSorted []

/-- Model of `list_connections()`: the sorted union of persisted-config
and live-engine names. -/
def list_connections (m : ConnectionManager) : List String :=
  sortS ((keysA m.configs ++ keysA m.engines).dedup)

/-- Model of `remove_connection(name)`: the live engine is disposed (the
returned list) and removed, and the persisted config is deleted; an
absent name leaves the registry unchanged. -/
def remove_connection (m : ConnectionManager) (name : String) :
    ConnectionManager × List EngineV :=
  ({ engines := eraseA name m.engines, configs := eraseA name m.configs },
   match lookupA name m.engines with
   | some e => [e]
   | none => [])

/-- Fixture states for the registry witnesses. -/
def wEngineX : EngineV := { url := some "x" }

/-- Fixture engine built by `add_connection` in the witness scenario. -/
def wEngineDb1 : EngineV :=
  { drivername := "mysql+pymysql", host := some "localhost", port := some 3306 }

/-- Fixture config built by `add_connection` in the witness scenario. -/
def wCfgDb1 : ConfigV := { ctype := "mysql", driver := some "pymysql" }

/-- Registry before the witness `add_connection` call. -/
def wMgr0 : ConnectionManager := { engines := [("db", wEngineX)], configs := [] }

/-- Registry after the witness `add_connection` call. -/
def wMgr1 : ConnectionManager :=
  { engines := [("db", wEngineX), ("db (1)", wEngineDb1)], configs := [("db (1)", wCfgDb1)] }

/-- Empty registry for the witness `add_sqlite_connection` call. -/
def wMgrS0 : ConnectionManager := { engines := [], configs := [] }

/-- Registry after the witness `add_sqlite_connection` call. -/
def wMgrS1 : ConnectionManager :=
  { engines := [("SQLite: b.db", { url := some "sqlite:////a/b.db" })]
    configs := [("SQLite: b.db", { ctype := "sqlite", path := some "/a/b.db" })] }

/-- Registry fixture for the `remove_connection` witness. -/
def wMgrR : ConnectionManager :=
  { engines := [("a", { url := some "u" })]
    configs := [("a", { ctype := "sqlite", path := some "/a" }), ("b", { ctype := "mysql" })] }

/-! ### Connection-directive extraction (`main_window.py`, `on_run` lines 497–508)

The comment directive is recognised with
`re.search(r"^\s*--\s*connection\s*:\s*([^\s]+)", sql, IGNORECASE | MULTILINE)`
and stripped with `re.sub(r"^\s*--\s*connection\s*:\s*[^\n]+\n?", "", sql,
count=1, ...)`; the pseudo-statement form uses
`^\s*USE\s+CONNECTION\s+([^\s;]+)\s*;?` for the search and
`^\s*USE\s+CONNECTION\s+[^\n;]+\s*;?\n?` for the removal.  With
`re.MULTILINE` the `^` anchor matches at position 0 and after every
newline, and the `\s` class contains the newline, so whitespace runs
cross line boundaries.  Each pattern is embedded as an anchored matcher
on the whole suffix starting at a line-start position; `re.search` and
`re.sub(..., count=1)` take the leftmost such position with a match.
Every `\s*`/`\s+` run that precedes a token beginning with a
non-whitespace character is necessarily maximal, so the only
backtracking the patterns admit is at the `\s*[^\n]+` (comment) and
`\s+[^\n;]+` (USE) frontier, when the maximal whitespace run reaches the
end of the text or, for the USE form, a `;`: there `[^\n]+`/`[^\n;]+`
re-takes whitespace from the end of the run, which therefore needs a
suitably placed non-newline character. -/

/-- Case-insensitive (ASCII) prefix test. -/
def ciPrefix (pat l : List Char) : Bool := lowerList (l.take pat.length) = pat

/-- Anchored match of `\s*--\s*connection\s*:` (IGNORECASE), returning the
suffix after the colon. -/
def commentPrefixTail (l : List Char) : Option (List Char) :=
  match l.dropWhile isPyWs with
  | '-' :: '-' :: t1 =>
    if ciPrefix "connection".data (t1.dropWhile isPyWs) then
      match ((t1.dropWhile isPyWs).drop 10).dropWhile isPyWs with
      | ':' :: t3 => some t3
      | _ => none
    else none
  | _ => none

/-- Anchored match of the comment search pattern
`\s*--\s*connection\s*:\s*([^\s]+)`: returns the captured name, the
maximal non-whitespace run after the colon's whitespace run. -/
def searchCommentAt (l : List Char) : Option (List Char) :=
  match commentPrefixTail l with
  | some t3 =>
    (match (t3.dropWhile isPyWs).takeWhile (fun c => ¬ isPyWs c) with
     | [] => none
     | name => some name)
  | none => none

/-- Tail `\s*[^\n]+\n?` of the comment removal pattern: returns the text
left after the match.  When the whitespace run reaches the end of the
text, `\s*` backtracks so that `[^\n]+` matches the run's last
non-newline character, and `\n?` then takes one of the trailing
newlines. -/
def subTailComment (t : List Char) : Option (List Char) :=
  match t.dropWhile isPyWs with
  | _ :: _ =>
    (match (t.dropWhile isPyWs).dropWhile (fun c => ¬ (c = '\n')) with
     | '\n' :: rest => some rest
     | rest => some rest)
  | [] =>
    (match t.reverse.dropWhile (fun c => c = '\n') with
     | _ :: _ =>
       some (List.replicate ((t.reverse.takeWhile (fun c => c = '\n')).length - 1) '\n')
     | [] => none)

/-- Anchored match of the comment removal pattern
`\s*--\s*connection\s*:\s*[^\n]+\n?`: returns the text left after the
match. -/
def subCommentAt (l : List Char) : Option (List Char) :=
  match commentPrefixTail l with
  | some t3 => subTailComment t3
  | none => none

/-- Anchored match of `\s*USE\s+CONNECTION` (IGNORECASE), returning the
suffix after it. -/
def usePrefixTail (l : List Char) : Option (List Char) :=
  if ciPrefix "use".data (l.dropWhile isPyWs) then
    match (l.dropWhile isPyWs).drop 3 with
    | c :: t =>
      if isPyWs c then
        if ciPrefix "connection".data ((c :: t).dropWhile isPyWs) then
          some (((c :: t).dropWhile isPyWs).drop 10)
        else none
      else none
    | [] => none
  else none

/-- Anchored match of the USE search pattern
`\s*USE\s+CONNECTION\s+([^\s;]+)\s*;?`: returns the captured name. -/
def searchUseAt (l : List Char) : Option (List Char) :=
  match usePrefixTail l with
  | some r =>
    (match r with
     | c :: _ =>
       if isPyWs c then
         (match (r.dropWhile isPyWs).takeWhile (fun c => ¬ (isPyWs c ∨ c = ';')) with
          | [] => none
          | name => some name)
       else none
     | [] => none)
  | none => none

/-- Tail `\s+[^\n;]+\s*;?\n?` of the USE removal pattern: returns the text
left after the match.  When the maximal whitespace run is followed by `;`
or by the end of the text, `\s+` backtracks so that `[^\n;]+` matches
inside the run, which therefore needs a non-newline character after its
first position. -/
def subTailUse (t : List Char) : Option (List Char) :=
  match t with
  | c :: _ =>
    if isPyWs c then
      match t.dropWhile isPyWs with
      | ';' :: rest1 =>
        if ((t.takeWhile isPyWs).drop 1).any (fun x => ¬ (x = '\n')) then
          (match rest1 with
           | '\n' :: r2 => some r2
           | _ => some rest1)
        else none
      | _ :: _ =>
        (match ((t.dropWhile isPyWs).dropWhile
            (fun x => ¬ (x = '\n' ∨ x = ';'))).dropWhile isPyWs with
         | ';' :: r =>
           (match r with
            | '\n' :: r2 => some r2
            | _ => some r)
         | r => some r)
      | [] =>
        if ((t.takeWhile isPyWs).drop 1).any (fun x => ¬ (x = '\n')) then some []
        else none
    else none
  | [] => none

/-- Anchored match of the USE removal pattern
`\s*USE\s+CONNECTION\s+[^\n;]+\s*;?\n?`: returns the text left after the
match. -/
def subUseAt (l : List Char) : Option (List Char) :=
  match usePrefixTail l with
  | some r => subTailUse r
  | none => none

/-- `re.MULTILINE` scan of the line-start positions after position 0: the
anchored matcher is tried after every newline, left to right. -/
def searchMLFrom (f : List Char → Option (List Char)) : List Char → Option (List Char)
  | [] => none
  | c :: t =>
    if c = '\n' then
      match f t with
      | some r => some r
      | none => searchMLFrom f t
    else searchMLFrom f t

/-- `re.search` with a `re.MULTILINE` `^`-anchored pattern: position 0
first, then after every newline. -/
def searchML (f : List Char → Option (List Char)) (s : List Char) : Option (List Char) :=
  match f s with
  | some r => some r
  | none => searchMLFrom f s

/-- `re.sub(..., count=1)` scan after position 0: at the leftmost matching
line start the match is replaced by the matcher's remainder; every other
character is kept. -/
def subMLAux (f : List Char → Option (List Char)) : List Char → List Char
  | [] => []
  | c :: t =>
    if c = '\n' then
      match f t with
      | some rest => c :: rest
      | none => c :: subMLAux f t
    else c :: subMLAux f t

/-- `re.sub(..., count=1)` with a `re.MULTILINE` `^`-anchored pattern; the
text is returned unchanged when no position matches. -/
def subML (f : List Char → Option (List Char)) (s : List Char) : List Char :=
  match f s with
  | some rest => rest
  | none => subMLAux f s

/-- Re-join lines with newlines. -/
def joinNl : List (List Char) → List Char
  | [] => []
  | [l] => l
  | l :: rest => l ++ '\n' :: joinNl rest

/-- Model of the directive handling in `on_run`: the comment form is
searched first over the whole text; when it is found, the comment removal
pattern's leftmost match is stripped; otherwise the USE form is searched
and stripped likewise; with no directive the text is returned
unchanged. -/
def extractConnectionDirective (sql : String) : Option String × String :=
  match searchML searchCommentAt sql.data with
  | some name => (some (String.mk name), String.mk (subML subCommentAt sql.data))
  | none =>
    match searchML searchUseAt sql.data with
    | some name => (some (String.mk name), String.mk (subML subUseAt sql.data))
    | none => (none, sql)

/-- Evaluating `Char.ofNat` below the surrogate range recovers the code point. -/
theorem toNat_ofNat_valid (m : Nat) (h : m < 55296) : (Char.ofNat m).toNat = m := by
  simp only [Char.ofNat, Or.inl h, dite_true, dif_pos, Char.ofNatAux]
  rfl

theorem decVal_go_append (l : List Char) (c : Char) (n : Nat) :
    (l ++ [c]).foldl (fun a c => a * 10 + (c.toNat - 48)) n
      = (l.foldl (fun a c => a * 10 + (c.toNat - 48)) n) * 10 + (c.toNat - 48) := by
  rw [List.foldl_append]
  rfl

theorem decVal_go_natReprAux (fuel n a : Nat) (hfuel : n < fuel) :
    (natReprAux fuel n).foldl (fun a c => a * 10 + (c.toNat - 48)) a = a * 10 ^ (natReprAux fuel n).length + n := by
  induction fuel generalizing n a with
  | zero => omega
  | succ fuel ih =>
    by_cases h : n < 10
    · simp only [natReprAux, if_pos h, List.foldl_cons, List.foldl_nil, List.length_singleton]
      rw [toNat_ofNat_valid (48 + n) (by omega)]
      ring_nf
      omega
    · simp only [natReprAux, if_neg h]
      rw [decVal_go_append, ih (n / 10) a (by omega),
        toNat_ofNat_valid (48 + n % 10) (by omega)]
      rw [List.length_append, List.length_singleton, pow_succ]
      have : a * (10 ^ (natReprAux fuel (n / 10)).length * 10) = a * 10 ^ (natReprAux fuel (n / 10)).length * 10 := by ring
      rw [this]
      omega

/-- Reading the decimal rendering back yields the original number. -/
theorem decVal_natRepr (n : Nat) : decVal (natRepr n) = n := by
  have := decVal_go_natReprAux (n + 1) n 0 (by omega)
  simpa [decVal, natRepr] using this

/-- Decimal rendering is injective. -/
theorem natRepr_injective : Function.Injective natRepr := by
  intro a b h
  have := decVal_natRepr a
  rw [h, decVal_natRepr] at this
  omega

/-- Decimal rendering to strings is injective. -/
theorem natReprS_injective : Function.Injective natReprS := by
  intro a b h
  apply natRepr_injective
  simpa [natReprS] using congrArg String.data h

theorem lookupA_cons (k k' : String) {β : Type} (v : β) (t : List (String × β)) :
    lookupA k ((k', v) :: t) = if k = k' then some v else lookupA k t := rfl

theorem eraseA_cons (k k' : String) {β : Type} (v : β) (t : List (String × β)) :
    eraseA k ((k', v) :: t) = if k = k' then t else (k', v) :: eraseA k t := rfl

theorem lookupA_eq_none_of_not_mem {β : Type} (k : String) (l : List (String × β))
    (h : k ∉ keysA l) : lookupA k l = none := by
  induction l with
  | nil => rfl
  | cons p t ih =>
    simp only [keysA, List.map_cons, List.mem_cons] at h
    push_neg at h
    rw [show p = (p.1, p.2) from rfl, lookupA_cons, if_neg h.1]
    exact ih h.2

theorem lookupA_isSome_iff_mem {β : Type} (k : String) (l : List (String × β)) :
    (lookupA k l).isSome ↔ k ∈ keysA l := by
  induction l with
  | nil => simp [lookupA, keysA]
  | cons p t ih =>
    rw [show p = (p.1, p.2) from rfl, lookupA_cons]
    by_cases h : k = p.1
    · simp [h, keysA]
    · rw [if_neg h]
      simp only [keysA, List.map_cons, List.mem_cons]
      rw [ih]
      simp [keysA, h]

theorem keysA_eraseA_not_mem {β : Type} (k : String) (l : List (String × β))
    (h : (keysA l).Nodup) : k ∉ keysA (eraseA k l) := by
  induction l with
  | nil => simp [eraseA, keysA]
  | cons p t ih =>
    simp only [keysA, List.map_cons, List.nodup_cons] at h
    rw [show p = (p.1, p.2) from rfl, eraseA_cons]
    by_cases hk : k = p.1
    · rw [if_pos hk]
      rw [hk]
      exact h.1
    · rw [if_neg hk]
      simp only [keysA, List.map_cons, List.mem_cons]
      push_neg
      exact ⟨hk, ih h.2⟩

theorem lookupA_eraseA_self {β : Type} (k : String) (l : List (String × β))
    (h : (keysA l).Nodup) : lookupA k (eraseA k l) = none :=
  lookupA_eq_none_of_not_mem _ _ (keysA_eraseA_not_mem k l h)

theorem eraseA_of_not_mem {β : Type} (k : String) (l : List (String × β))
    (h : k ∉ keysA l) : eraseA k l = l := by
  induction l with
  | nil => rfl
  | cons p t ih =>
    simp only [keysA, List.map_cons, List.mem_cons] at h
    push_neg at h
    rw [show p = (p.1, p.2) from rfl, eraseA_cons, if_neg h.1, ih h.2]

theorem lookupA_eraseA_ne {β : Type} (k k' : String) (l : List (String × β))
    (h : k ≠ k') : lookupA k (eraseA k' l) = lookupA k l := by
  induction l with
  | nil => rfl
  | cons p t ih =>
    rw [show p = (p.1, p.2) from rfl, eraseA_cons]
    by_cases hk : k' = p.1
    · rw [if_pos hk, lookupA_cons, if_neg (by rw [← hk]; exact h)]
    · rw [if_neg hk, lookupA_cons, lookupA_cons, ih]

theorem runStatement_rowSet_spec (cols : List String) (allRows : List (List Val)) (rowLimit : Nat) :
    (runStatement (.rowSet cols allRows) rowLimit).rows.length = min rowLimit allRows.length
    ∧ (runStatement (.rowSet cols allRows) rowLimit).truncated = decide (allRows.length > rowLimit)
    ∧ ((runStatement (.rowSet cols allRows) rowLimit).truncated = false
        → (runStatement (.rowSet cols allRows) rowLimit).rows = allRows) := by
  have hfetch : (allRows.take (rowLimit + 1)).length = min (rowLimit + 1) allRows.length := by
    rw [List.length_take]
  by_cases h : allRows.length > rowLimit
  · have htr : (allRows.take (rowLimit + 1)).length > rowLimit := by omega
    simp only [runStatement, if_pos htr]
    refine ⟨?_, ?_, ?_⟩
    · simp only [List.length_take]
      omega
    · simp [h]
    · intro hfalse
      simp at hfalse
  · have hall : allRows.take (rowLimit + 1) = allRows := by
      apply List.take_of_length_le
      omega
    have htr : ¬ ((allRows.take (rowLimit + 1)).length > rowLimit) := by omega
    simp only [runStatement, if_neg htr]
    refine ⟨?_, ?_, ?_⟩
    · rw [hall]
      omega
    · simp [h]
    · intro _
      exact hall

theorem runStatements_ok_spec (driver : String → Except String DriverOutcome)
    (signal : Nat → Bool) (rowLimit : Nat) :
    ∀ (l : List String) (i : Nat) (results : List ExecResult),
      (runStatements driver signal rowLimit i l).1 = .ok results →
      results.length = l.length
      ∧ ∀ (j : Nat) (stmt : String), l[j]? = some stmt →
          ∃ o, driver stmt = .ok o ∧ results[j]? = some (runStatement o rowLimit) := by
  intro l
  induction l with
  | nil =>
    intro i results h
    simp only [runStatements] at h
    cases h
    exact ⟨rfl, by intro j stmt hj; simp at hj⟩
  | cons stmt rest ih =>
    intro i results h
    simp only [runStatements] at h
    by_cases hs : signal i
    · rw [if_pos hs] at h
      cases h
    · rw [if_neg hs] at h
      cases hd : driver stmt with
      | error msg => rw [hd] at h; cases h
      | ok outcome =>
        rw [hd] at h
        simp only at h
        cases hnext : (runStatements driver signal rowLimit (i + 1) rest).1 with
        | error e => rw [hnext] at h; cases h
        | ok rs =>
          rw [hnext] at h
          cases h
          obtain ⟨hlen, hspec⟩ := ih (i + 1) rs hnext
          refine ⟨by simp [hlen], ?_⟩
          intro j s hj
          cases j with
          | zero =>
            simp only [List.getElem?_cons_zero] at hj
            cases hj
            exact ⟨outcome, hd, by simp⟩
          | succ j' =>
            simp only [List.getElem?_cons_succ] at hj
            obtain ⟨o, ho, hr⟩ := hspec j' s hj
            exact ⟨o, ho, by simpa using hr⟩

/-- C1.  Every result of a successful `execute_sql` call that came from a
row-returning statement with `M` available rows holds exactly
`min (rowLimit) M` rows, its `truncated` flag equals `M > rowLimit`, and
whenever `truncated` is false no row was discarded. -/
theorem execute_sql_row_limit_spec (driver : String → Except String DriverOutcome)
    (signal : Nat → Bool) (sql : String) (rowLimit : Nat) (results : List ExecResult)
    (i : Nat) (stmt : String) (cols : List String) (allRows : List (List Val))
    (hok : (execute_sql driver signal sql rowLimit).1 = .ok results)
    (hstmt : (splitStatements sql)[i]? = some stmt)
    (hdrv : driver stmt = .ok (.rowSet cols allRows)) :
    ∃ r, results[i]? = some r
      ∧ r.rows.length = min rowLimit allRows.length
      ∧ r.truncated = decide (allRows.length > rowLimit)
      ∧ (r.truncated = false → r.rows = allRows) := by
  obtain ⟨_, hspec⟩ := runStatements_ok_spec driver signal rowLimit (splitStatements sql) 0 results hok
  obtain ⟨o, ho, hr⟩ := hspec i stmt hstmt
  rw [hdrv] at ho
  cases ho
  exact ⟨_, hr, runStatement_rowSet_spec cols allRows rowLimit⟩

/-- Closed-instance check of `execute_sql_row_limit_spec`: a three-row
result set under row limit 2 keeps two rows with `truncated = true`. -/
theorem execute_sql_row_limit_spec_witness :
    ∃ r, [runStatement (.rowSet ["c"] [[Val.int 1], [Val.int 2], [Val.int 3]]) 2][0]? = some r
      ∧ r.rows.length = min 2 ([[Val.int 1], [Val.int 2], [Val.int 3]] : List (List Val)).length
      ∧ r.truncated = decide (([[Val.int 1], [Val.int 2], [Val.int 3]] : List (List Val)).length > 2)
      ∧ (r.truncated = false → r.rows = [[Val.int 1], [Val.int 2], [Val.int 3]]) :=
  execute_sql_row_limit_spec
    (fun _ => .ok (.rowSet ["c"] [[Val.int 1], [Val.int 2], [Val.int 3]]))
    (fun _ => false) "SELECT 1" 2
    [runStatement (.rowSet ["c"] [[Val.int 1], [Val.int 2], [Val.int 3]]) 2]
    0 "SELECT 1" ["c"] [[Val.int 1], [Val.int 2], [Val.int 3]]
    (by decide) (by decide) rfl

/-- C5.  Every result of a successful `execute_sql` call that came from a
non-row-returning statement is the synthesized single-column
`["Message"]`, single-row `"Affected rows: n"` record with
`truncated = false`. -/
theorem execute_sql_message_row_spec (driver : String → Except String DriverOutcome)
    (signal : Nat → Bool) (sql : String) (rowLimit : Nat) (results : List ExecResult)
    (i : Nat) (stmt : String) (n : Int)
    (hok : (execute_sql driver signal sql rowLimit).1 = .ok results)
    (hstmt : (splitStatements sql)[i]? = some stmt)
    (hdrv : driver stmt = .ok (.rowcount n)) :
    results[i]? = some
      { columns := ["Message"]
        rows := [[Val.str ("Affected rows: " ++ toString n)]]
        truncated := false } := by
  obtain ⟨_, hspec⟩ := runStatements_ok_spec driver signal rowLimit (splitStatements sql) 0 results hok
  obtain ⟨o, ho, hr⟩ := hspec i stmt hstmt
  rw [hdrv] at ho
  cases ho
  exact hr

/-- Closed-instance check of `execute_sql_message_row_spec` on an UPDATE
affecting 7 rows. -/
theorem execute_sql_message_row_spec_witness :
    [runStatement (.rowcount 7) 1000][0]? = some
      { columns := ["Message"]
        rows := [[Val.str ("Affected rows: " ++ toString (7 : Int))]]
        truncated := false } :=
  execute_sql_message_row_spec (fun _ => .ok (.rowcount 7)) (fun _ => false)
    "UPDATE t SET a = 1" 1000 [runStatement (.rowcount 7) 1000] 0 "UPDATE t SET a = 1" 7
    (by decide) (by decide) rfl

theorem runStatements_canceled (driver : String → Except String DriverOutcome)
    (signal : Nat → Bool) (rowLimit : Nat)
    (hmono : ∀ i j, i ≤ j → signal i = true → signal j = true) :
    ∀ (l : List String) (i k : Nat),
      signal (i + k) = true → k < l.length →
      (∀ stmt ∈ l.take k, (driver stmt).isOk) →
      (runStatements driver signal rowLimit i l).1 = .error .canceled
      ∧ (runStatements driver signal rowLimit i l).2.length ≤ k
      ∧ (runStatements driver signal rowLimit i l).2
          = l.take (runStatements driver signal rowLimit i l).2.length := by
  intro l
  induction l with
  | nil =>
    intro i k _ hk _
    simp at hk
  | cons stmt rest ih =>
    intro i k hsig hk hok
    by_cases hs : signal i
    · refine ⟨?_, ?_, ?_⟩ <;> simp [runStatements, hs]
    · have hkpos : k ≠ 0 := by
        intro h0
        subst h0
        simp at hsig
        exact hs hsig
      obtain ⟨k', rfl⟩ : ∃ k', k = k' + 1 := ⟨k - 1, by omega⟩
      have hds : (driver stmt).isOk := hok stmt (by simp)
      cases hd : driver stmt with
      | error msg => rw [hd] at hds; simp [Except.isOk, Except.toBool] at hds
      | ok outcome =>
        have hrec := ih (i + 1) k'
          (by have heq : i + 1 + k' = i + (k' + 1) := by omega
              rw [heq]; exact hsig)
          (by simpa using hk)
          (by intro s hsmem
              exact hok s (by rw [List.take_succ_cons]; exact List.mem_cons_of_mem _ hsmem))
        simp only [runStatements, if_neg hs, hd]
        refine ⟨?_, ?_, ?_⟩
        · rw [hrec.1]
        · simp only [List.length_cons]
          omega
        · simp only [List.length_cons, List.take_succ_cons, List.cons.injEq]
          exact ⟨by trivial, hrec.2.2⟩

/-- C2.  If the stop event is signalled by the time the `k`-th statement
of a multi-statement call is about to begin (the event is monotone: once
set it stays set) and no earlier statement raised a driver error, then
`execute_sql` fails with `Execution canceled`, at most the first `k`
statements were ever issued to the driver, and the issued trace is a
prefix of the statement sequence — so statement `k` and all later ones
are never issued. -/
theorem execute_sql_cancel_spec (driver : String → Except String DriverOutcome)
    (signal : Nat → Bool) (sql : String) (rowLimit : Nat) (k : Nat)
    (hmono : ∀ i j, i ≤ j → signal i = true → signal j = true)
    (hsig : signal k = true) (hk : k < (splitStatements sql).length)
    (hok : ∀ stmt ∈ (splitStatements sql).take k, (driver stmt).isOk) :
    (execute_sql driver signal sql rowLimit).1 = .error .canceled
    ∧ (execute_sql driver signal sql rowLimit).2.length ≤ k
    ∧ (execute_sql driver signal sql rowLimit).2
        = (splitStatements sql).take (execute_sql driver signal sql rowLimit).2.length :=
  runStatements_canceled driver signal rowLimit hmono (splitStatements sql) 0 k
    (by simpa using hsig) hk hok

/-- Closed-instance check of `execute_sql_cancel_spec`: with the event set
from the second check on, the second of three statements is never issued
and the call is canceled. -/
theorem execute_sql_cancel_spec_witness :
    (execute_sql (fun _ => .ok (.rowcount 0)) (fun i => decide (1 ≤ i))
        "SELECT 1; SELECT 2; SELECT 3" 1000).1 = .error .canceled
    ∧ (execute_sql (fun _ => .ok (.rowcount 0)) (fun i => decide (1 ≤ i))
        "SELECT 1; SELECT 2; SELECT 3" 1000).2.length ≤ 1
    ∧ (execute_sql (fun _ => .ok (.rowcount 0)) (fun i => decide (1 ≤ i))
        "SELECT 1; SELECT 2; SELECT 3" 1000).2
        = (splitStatements "SELECT 1; SELECT 2; SELECT 3").take
            (execute_sql (fun _ => .ok (.rowcount 0)) (fun i => decide (1 ≤ i))
              "SELECT 1; SELECT 2; SELECT 3" 1000).2.length :=
  execute_sql_cancel_spec (fun _ => .ok (.rowcount 0)) (fun i => decide (1 ≤ i))
    "SELECT 1; SELECT 2; SELECT 3" 1000 1
    (by intro i j hij h; simp at h ⊢; omega)
    (by decide) (by decide) (by decide)

theorem rot13Char_involutive (c : Char) : rot13Char (rot13Char c) = c := by
  by_cases h1 : 97 ≤ c.toNat ∧ c.toNat ≤ 122
  · have h2 : rot13Char c = Char.ofNat (97 + (c.toNat - 97 + 13) % 26) := by
      unfold rot13Char
      rw [if_pos h1]
    have hv : (Char.ofNat (97 + (c.toNat - 97 + 13) % 26)).toNat
        = 97 + (c.toNat - 97 + 13) % 26 :=
      toNat_ofNat_valid _ (by omega)
    rw [h2]
    unfold rot13Char
    rw [if_pos (by rw [hv]; omega), hv]
    have harith : 97 + (97 + (c.toNat - 97 + 13) % 26 - 97 + 13) % 26 = c.toNat := by omega
    rw [harith, Char.ofNat_toNat]
  · by_cases h2 : 65 ≤ c.toNat ∧ c.toNat ≤ 90
    · have h3 : rot13Char c = Char.ofNat (65 + (c.toNat - 65 + 13) % 26) := by
        unfold rot13Char
        rw [if_neg h1, if_pos h2]
      have hv : (Char.ofNat (65 + (c.toNat - 65 + 13) % 26)).toNat
          = 65 + (c.toNat - 65 + 13) % 26 :=
        toNat_ofNat_valid _ (by omega)
      rw [h3]
      unfold rot13Char
      rw [if_neg (by rw [hv]; omega), if_pos (by rw [hv]; omega), hv]
      have harith : 65 + (65 + (c.toNat - 65 + 13) % 26 - 65 + 13) % 26 = c.toNat := by omega
      rw [harith, Char.ofNat_toNat]
    · have h3 : rot13Char c = c := by
        unfold rot13Char
        rw [if_neg h1, if_neg h2]
      rw [h3, h3]

theorem rot13_involutive (s : String) : rot13 (rot13 s) = s := by
  obtain ⟨d⟩ := s
  show String.mk ((d.map rot13Char).map rot13Char) = String.mk d
  rw [List.map_map]
  congr 1
  induction d with
  | nil => rfl
  | cons c t ih => simp [rot13Char_involutive, ih]

/-- C9.  Persisting the registry with `_save_config` and re-reading it
with `_load_config` restores every password to exactly its original
in-memory value: the write-then-read composition is the identity. -/
theorem save_load_config_password_roundtrip (configs : List (String × ConfigV)) :
    load_config (save_config configs) = configs := by
  unfold load_config save_config
  rw [List.map_map]
  induction configs with
  | nil => rfl
  | cons p t ih =>
    simp only [List.map_cons, List.cons.injEq] at ih ⊢
    refine ⟨?_, ih⟩
    show (p.1, { p.2 with password := (p.2.password.map rot13).map rot13 }) = p
    have hpw : (p.2.password.map rot13).map rot13 = p.2.password := by
      cases p.2.password with
      | none => rfl
      | some pw => simp [rot13_involutive]
    rw [hpw]

theorem buildPkClauses_spec {α : Type} (pk : List (String × Option α)) :
    ∀ (s j : Nat) (col : String),
      (pk[j]? = some (col, none) → (buildPkClauses s pk).1[j]? = some (.isNull col))
      ∧ ∀ v : α, pk[j]? = some (col, some v) →
          (buildPkClauses s pk).1[j]? = some (.eqParam col ("pk_" ++ natReprS (s + j)))
          ∧ ("pk_" ++ natReprS (s + j), v) ∈ (buildPkClauses s pk).2 := by
  induction pk with
  | nil =>
    intro s j col
    constructor
    · intro h
      simp at h
    · intro v h
      simp at h
  | cons p rest ih =>
    intro s j col
    obtain ⟨pcol, pval⟩ := p
    cases j with
    | zero =>
      constructor
      · intro h
        simp only [List.getElem?_cons_zero, Option.some.injEq, Prod.mk.injEq] at h
        obtain ⟨h1, h2⟩ := h
        subst h1
        subst h2
        simp [buildPkClauses]
      · intro v h
        simp only [List.getElem?_cons_zero, Option.some.injEq, Prod.mk.injEq] at h
        obtain ⟨h1, h2⟩ := h
        subst h1
        subst h2
        constructor
        · simp [buildPkClauses]
        · simp [buildPkClauses]
    | succ j' =>
      have ihr := ih (s + 1) j' col
      have hidx : s + 1 + j' = s + (j' + 1) := by omega
      constructor
      · intro h
        simp only [List.getElem?_cons_succ] at h
        have := ihr.1 h
        cases pval with
        | none => simpa [buildPkClauses] using this
        | some w => simpa [buildPkClauses] using this
      · intro v h
        simp only [List.getElem?_cons_succ] at h
        have := ihr.2 v h
        rw [hidx] at this
        cases pval with
        | none =>
          exact ⟨by simpa [buildPkClauses] using this.1,
                 by simp only [buildPkClauses]; exact this.2⟩
        | some w =>
          exact ⟨by simpa [buildPkClauses] using this.1,
                 by simp only [buildPkClauses]; exact List.mem_cons_of_mem _ this.2⟩

/-- C8.  Every UPDATE built by `apply_updates` and every DELETE built by
`delete_row` translates a `None` primary-key component into an `IS NULL`
conjunct — never an equality against NULL — while every non-`None`
component becomes an equality against bind parameter `pk_j` whose value
is bound in the statement's parameter mapping. -/
theorem pk_null_safe_predicate {α : Type} (table : String) (pk : List (String × Option α))
    (d : SqlDelete α) (items : List (PendingItem α)) (item : PendingItem α) (u : SqlUpdate α)
    (j : Nat) (col : String)
    (hd : delete_row table pk = some d)
    (hitem : item ∈ items) (hu : buildUpdate table item = some u) :
    (pk[j]? = some (col, none) → d.whereClauses[j]? = some (.isNull col))
    ∧ (∀ v, pk[j]? = some (col, some v) →
        d.whereClauses[j]? = some (.eqParam col ("pk_" ++ natReprS j))
        ∧ ("pk_" ++ natReprS j, v) ∈ d.params)
    ∧ u ∈ apply_updates table items
    ∧ (item.pk[j]? = some (col, none) → u.whereClauses[j]? = some (.isNull col))
    ∧ (∀ v, item.pk[j]? = some (col, some v) →
        u.whereClauses[j]? = some (.eqParam col ("pk_" ++ natReprS j))
        ∧ ("pk_" ++ natReprS j, v) ∈ u.params) := by
  have hdw : d.whereClauses = (buildPkClauses 0 pk).1 ∧ d.params = (buildPkClauses 0 pk).2 := by
    unfold delete_row at hd
    by_cases hpk : pk.isEmpty
    · rw [if_pos hpk] at hd
      cases hd
    · rw [if_neg hpk] at hd
      cases hd
      exact ⟨rfl, rfl⟩
  have huw : u.whereClauses = (buildPkClauses 0 item.pk).1
      ∧ u.params = (buildValues 0 item.changes).2 ++ (buildPkClauses 0 item.pk).2 := by
    unfold buildUpdate at hu
    by_cases hc : (item.changes.isEmpty || item.pk.isEmpty) = true
    · rw [if_pos hc] at hu
      cases hu
    · rw [if_neg hc] at hu
      cases hu
      exact ⟨rfl, rfl⟩
  have hspec := buildPkClauses_spec pk 0 j col
  have hspec' := buildPkClauses_spec item.pk 0 j col
  refine ⟨?_, ?_, ?_, ?_, ?_⟩
  · intro h
    rw [hdw.1]
    exact hspec.1 h
  · intro v h
    have := hspec.2 v h
    rw [Nat.zero_add] at this
    exact ⟨by rw [hdw.1]; exact this.1, by rw [hdw.2]; exact this.2⟩
  · exact List.mem_filterMap.mpr ⟨item, hitem, hu⟩
  · intro h
    rw [huw.1]
    exact hspec'.1 h
  · intro v h
    have := hspec'.2 v h
    rw [Nat.zero_add] at this
    exact ⟨by rw [huw.1]; exact this.1,
           by rw [huw.2]; exact List.mem_append_right _ this.2⟩

/-- Closed-instance check of `pk_null_safe_predicate`: primary key
`{id: None, k: 7}` yields `id IS NULL` and `k = :pk_1` for both the
DELETE and the UPDATE path. -/
theorem pk_null_safe_predicate_witness :
    ((delete_row "t" [("id", (none : Option Int)), ("k", some 7)]).getD
        { table := "", whereClauses := [], params := [] }).whereClauses[0]?
      = some (.isNull "id")
    ∧ (∀ v : Int,
        ([("id", (none : Option Int)), ("k", some 7)] : List (String × Option Int))[0]?
            = some ("id", some v) →
          ((delete_row "t" [("id", (none : Option Int)), ("k", some 7)]).getD
              { table := "", whereClauses := [], params := [] }).whereClauses[0]?
            = some (.eqParam "id" ("pk_" ++ natReprS 0))
          ∧ ("pk_" ++ natReprS 0, v) ∈
              ((delete_row "t" [("id", (none : Option Int)), ("k", some 7)]).getD
                { table := "", whereClauses := [], params := [] }).params) := by
  have h := pk_null_safe_predicate (α := Int) "t" [("id", none), ("k", some 7)]
    { table := "t"
      whereClauses := (buildPkClauses 0 [("id", (none : Option Int)), ("k", some 7)]).1
      params := (buildPkClauses 0 [("id", (none : Option Int)), ("k", some 7)]).2 }
    [{ changes := [("a", (1 : Int))], pk := [("id", none), ("k", some 7)] }]
    { changes := [("a", (1 : Int))], pk := [("id", none), ("k", some 7)] }
    { table := "t"
      setValues := (buildValues 0 [("a", (1 : Int))]).1
      whereClauses := (buildPkClauses 0 [("id", (none : Option Int)), ("k", some 7)]).1
      params := (buildValues 0 [("a", (1 : Int))]).2
        ++ (buildPkClauses 0 [("id", (none : Option Int)), ("k", some 7)]).2 }
    0 "id" rfl (by simp) rfl
  refine ⟨?_, ?_⟩
  · have := h.1 (by decide)
    simpa using this
  · intro v hv
    simp at hv

theorem splitFirst_eq_none (sep : Char) (l : List Char) (h : sep ∉ l) :
    splitFirst sep l = none := by
  induction l with
  | nil => rfl
  | cons c t ih =>
    simp only [List.mem_cons] at h
    push_neg at h
    have hcne : ¬ (c = sep) := fun hc => h.1 hc.symm
    simp only [splitFirst, if_neg hcne, ih h.2]

theorem splitFirst_append_sep (sep : Char) (a b : List Char) (h : sep ∉ a) :
    splitFirst sep (a ++ sep :: b) = some (a, b) := by
  induction a with
  | nil => simp [splitFirst]
  | cons c t ih =>
    simp only [List.mem_cons] at h
    push_neg at h
    have hcne : ¬ (c = sep) := fun hc => h.1 hc.symm
    rw [List.cons_append]
    simp only [splitFirst, if_neg hcne, ih h.2]

theorem splitLast_eq_none (sep : Char) (l : List Char) (h : sep ∉ l) :
    splitLast sep l = none := by
  unfold splitLast
  rw [splitFirst_eq_none sep l.reverse (by simpa using h)]

theorem lookupA_insertA_ne {β : Type} (k k' : String) (v : β) (l : List (String × β))
    (h : k ≠ k') : lookupA k (insertA k' v l) = lookupA k l := by
  induction l with
  | nil => simp [insertA, lookupA, h]
  | cons p t ih =>
    rw [show p = (p.1, p.2) from rfl]
    simp only [insertA]
    by_cases hk : k' = p.1
    · rw [if_pos hk, lookupA_cons, lookupA_cons]
      by_cases hkp : k = p.1
      · exact absurd (hkp.trans hk.symm) h
      · rw [if_neg hkp, if_neg hkp]
    · rw [if_neg hk, lookupA_cons, lookupA_cons]
      by_cases hkp : k = p.1
      · rw [if_pos hkp, if_pos hkp]
      · rw [if_neg hkp, if_neg hkp, ih]

theorem lookupA_append {β : Type} (k : String) (l m : List (String × β)) :
    lookupA k (l ++ m)
      = match lookupA k l with
        | some v => some v
        | none => lookupA k m := by
  induction l with
  | nil => rfl
  | cons p t ih =>
    rw [show p = (p.1, p.2) from rfl, List.cons_append, lookupA_cons, lookupA_cons]
    by_cases hk : k = p.1
    · rw [if_pos hk, if_pos hk]
    · rw [if_neg hk, if_neg hk, ih]

theorem setdefaultA_of_lookup_none {β : Type} (k : String) (v : β) (l : List (String × β))
    (h : lookupA k l = none) : setdefaultA k v l = l ++ [(k, v)] := by
  unfold setdefaultA
  rw [h]

theorem lookupA_setdefaultA_ne {β : Type} (k k' : String) (v : β) (l : List (String × β))
    (h : k ≠ k') : lookupA k (setdefaultA k' v l) = lookupA k l := by
  unfold setdefaultA
  cases hl : lookupA k' l with
  | some w => rfl
  | none =>
    rw [lookupA_append]
    cases hk : lookupA k l with
    | some w => rfl
    | none => simp [lookupA_cons, lookupA, h]

theorem mem_insertA {β : Type} (x : String × β) (k : String) (v : β) (l : List (String × β))
    (hx : x ∈ insertA k v l) : x ∈ l ∨ x = (k, v) := by
  induction l with
  | nil =>
    simp only [insertA, List.mem_singleton] at hx
    exact Or.inr hx
  | cons p t ih =>
    rw [show p = (p.1, p.2) from rfl] at hx
    simp only [insertA] at hx
    by_cases hk : k = p.1
    · rw [if_pos hk] at hx
      rcases List.mem_cons.mp hx with hx | hx
      · exact Or.inr (by rw [hx, hk])
      · exact Or.inl (List.mem_cons_of_mem _ hx)
    · rw [if_neg hk] at hx
      rcases List.mem_cons.mp hx with hx | hx
      · exact Or.inl (by rw [hx]; exact List.mem_cons_self _ _)
      · rcases ih hx with hx | hx
        · exact Or.inl (List.mem_cons_of_mem _ hx)
        · exact Or.inr hx

theorem keysA_insertA {β : Type} (k : String) (v : β) (l : List (String × β)) :
    keysA (insertA k v l) = if k ∈ keysA l then keysA l else keysA l ++ [k] := by
  induction l with
  | nil => simp [insertA, keysA]
  | cons p t ih =>
    rw [show p = (p.1, p.2) from rfl]
    simp only [insertA]
    by_cases hk : k = p.1
    · rw [if_pos hk]
      simp [keysA, hk]
    · rw [if_neg hk]
      simp only [keysA, List.map_cons] at ih ⊢
      rw [ih]
      by_cases hm : k ∈ List.map Prod.fst t
      · rw [if_pos hm, if_pos (by simp [hm])]
      · rw [if_neg hm, if_neg (by simp [hm, hk])]
        simp

theorem nodup_keysA_insertA {β : Type} (k : String) (v : β) (l : List (String × β))
    (h : (keysA l).Nodup) : (keysA (insertA k v l)).Nodup := by
  rw [keysA_insertA]
  by_cases hm : k ∈ keysA l
  · rw [if_pos hm]
    exact h
  · rw [if_neg hm]
    simp [List.nodup_append, h, hm]

theorem nodup_keysA_setdefaultA {β : Type} (k : String) (v : β) (l : List (String × β))
    (h : (keysA l).Nodup) : (keysA (setdefaultA k v l)).Nodup := by
  unfold setdefaultA
  cases hl : lookupA k l with
  | some w => exact h
  | none =>
    have hm : k ∉ keysA l := by
      intro hmem
      have hs := (lookupA_isSome_iff_mem k l).mpr hmem
      rw [hl] at hs
      simp at hs
    have hkeys : keysA (l ++ [(k, v)]) = keysA l ++ [k] := by
      simp [keysA]
    rw [hkeys]
    simp [List.nodup_append, h, hm]

theorem keysA_eraseA_sublist {β : Type} (k : String) (l : List (String × β)) :
    List.Sublist (keysA (eraseA k l)) (keysA l) := by
  induction l with
  | nil => simp [eraseA, keysA]
  | cons p t ih =>
    rw [show p = (p.1, p.2) from rfl, eraseA_cons]
    by_cases hk : k = p.1
    · rw [if_pos hk]
      exact List.Sublist.cons _ (List.Sublist.refl _)
    · rw [if_neg hk]
      simp only [keysA, List.map_cons]
      exact List.Sublist.cons₂ _ ih

theorem nodup_keysA_eraseA {β : Type} (k : String) (l : List (String × β))
    (h : (keysA l).Nodup) : (keysA (eraseA k l)).Nodup :=
  List.Nodup.sublist (keysA_eraseA_sublist k l) h

theorem lookupA_jdbcSslStep_ne (k : String) (p : List (String × String))
    (h : k ≠ "sslmode") : lookupA k (jdbcSslStep p) = lookupA k p := by
  unfold jdbcSslStep
  by_cases hc : lowerS ((lookupA "ssl" p).getD "") = "false"
  · rw [if_pos hc, lookupA_insertA_ne _ _ _ _ h]
  · rw [if_neg hc]

theorem nodup_jdbcSslStep (p : List (String × String)) (h : (keysA p).Nodup) :
    (keysA (jdbcSslStep p)).Nodup := by
  unfold jdbcSslStep
  by_cases hc : lowerS ((lookupA "ssl" p).getD "") = "false"
  · rw [if_pos hc]
    exact nodup_keysA_insertA _ _ _ h
  · rw [if_neg hc]
    exact h

theorem lookupA_jdbcSchemaOptStep_ne (k : String) (p : List (String × String))
    (h : k ≠ "options") : lookupA k (jdbcSchemaOptStep p) = lookupA k p := by
  unfold jdbcSchemaOptStep
  by_cases hc : truthy (lookupA "currentSchema" p) = true
  · rw [if_pos hc, lookupA_setdefaultA_ne _ _ _ _ h]
  · rw [if_neg hc]

theorem nodup_jdbcSchemaOptStep (p : List (String × String)) (h : (keysA p).Nodup) :
    (keysA (jdbcSchemaOptStep p)).Nodup := by
  unfold jdbcSchemaOptStep
  by_cases hc : truthy (lookupA "currentSchema" p) = true
  · rw [if_pos hc]
    exact nodup_keysA_setdefaultA _ _ _ h
  · rw [if_neg hc]
    exact h

theorem jdbcTzPred_options (v : String) : jdbcTzPred ("options", v) = false := rfl

theorem lookupA_jdbcTzStep_ne (k : String) (p : List (String × String))
    (h1 : k ≠ "options") (h2 : lowerS k ≠ "timezone") (h3 : lowerS k ≠ "servertimezone") :
    lookupA k (jdbcTzStep p) = lookupA k p := by
  unfold jdbcTzStep
  cases hf : p.find? jdbcTzPred with
  | none => simp only [hf]
  | some kv =>
    have hpred : jdbcTzPred kv = true := List.find?_some hf
    have hkne : k ≠ kv.1 := by
      intro hkk
      subst hkk
      unfold jdbcTzPred at hpred
      simp only [Bool.or_eq_true, decide_eq_true_eq] at hpred
      rcases hpred with hp | hp
      · exact h2 hp
      · exact h3 hp
    simp only [hf]
    have key : ∀ X : String, lookupA k (insertA "options" X (eraseA kv.1 p)) = lookupA k p := by
      intro X
      rw [lookupA_insertA_ne _ _ _ _ h1, lookupA_eraseA_ne _ _ _ hkne]
    split
    · split
      · split
        · exact key _
        · exact key _
      · exact key _
    · exact lookupA_eraseA_ne _ _ _ hkne

theorem nodup_jdbcTzStep (p : List (String × String)) (h : (keysA p).Nodup) :
    (keysA (jdbcTzStep p)).Nodup := by
  unfold jdbcTzStep
  cases hf : p.find? jdbcTzPred with
  | none =>
    simp only [hf]
    exact h
  | some kv =>
    have he := nodup_keysA_eraseA kv.1 p h
    simp only [hf]
    split
    · split
      · split
        · exact nodup_keysA_insertA _ _ _ he
        · exact nodup_keysA_insertA _ _ _ he
      · exact nodup_keysA_insertA _ _ _ he
    · exact he

/-- C4 counterexample.  On `jdbc:postgresql://h/db?search_path=foo` the
`search_path` alias is captured into the normalized `schema` field but is
neither folded into an `options` entry nor removed from the returned
parameter bag, contradicting the claim that every schema alias is
consolidated into `options` and that no alias key remains. -/
theorem parse_jdbc_url_search_path_not_consolidated :
    parse_jdbc_url "jdbc:postgresql://h/db?search_path=foo"
      = .ok { conn_type := "postgresql", host := some "h", port := none, database := "db",
              username := none, password := none,
              params := [("search_path", "foo")], schema := some "foo" }
    ∧ lookupA "search_path" [("search_path", "foo")] = some "foo"
    ∧ lookupA "options" [("search_path", "foo")] = none :=
  ⟨by decide, by decide, by decide⟩

/-- C4 (amended).  After `parse_jdbc_url`'s parameter normalization the
keys `currentSchema`, `ssl`, `characterEncoding`, `TimeZone` and
`serverTimezone` are removed from the parameter bag, but the
`search_path` alias entry survives unchanged (it is captured into the
normalized `schema` field only); a truthy `currentSchema` is folded into
`options` as `-c search_path=<value>` only via `setdefault` — shown here
for a bag with no pre-existing `options` and no timezone keys. -/
theorem normalize_jdbc_params_spec (params0 : List (String × String))
    (hnd : (keysA params0).Nodup) :
    lookupA "currentSchema" (normalizeJdbcParams params0).1 = none
    ∧ lookupA "ssl" (normalizeJdbcParams params0).1 = none
    ∧ lookupA "characterEncoding" (normalizeJdbcParams params0).1 = none
    ∧ lookupA "TimeZone" (normalizeJdbcParams params0).1 = none
    ∧ lookupA "serverTimezone" (normalizeJdbcParams params0).1 = none
    ∧ lookupA "search_path" (normalizeJdbcParams params0).1 = lookupA "search_path" params0
    ∧ ((∀ kv ∈ params0, jdbcTzPred kv = false) →
        truthy (lookupA "currentSchema" params0) = true →
        lookupA "options" params0 = none →
        lookupA "options" (normalizeJdbcParams params0).1
          = some ("-c search_path=" ++ (lookupA "currentSchema" params0).getD "")) := by
  have hnd1 : (keysA (jdbcSslStep params0)).Nodup := nodup_jdbcSslStep _ hnd
  have hnd2 : (keysA (jdbcSchemaOptStep (jdbcSslStep params0))).Nodup :=
    nodup_jdbcSchemaOptStep _ hnd1
  have hnd3 : (keysA (jdbcTzStep (jdbcSchemaOptStep (jdbcSslStep params0)))).Nodup :=
    nodup_jdbcTzStep _ hnd2
  simp only [normalizeJdbcParams, jdbcPopStep]
  refine ⟨?_, ?_, ?_, ?_, ?_, ?_, ?_⟩
  · rw [lookupA_eraseA_ne _ _ _ (by decide), lookupA_eraseA_ne _ _ _ (by decide),
      lookupA_eraseA_ne _ _ _ (by decide), lookupA_eraseA_ne _ _ _ (by decide)]
    exact lookupA_eraseA_self _ _ hnd3
  · rw [lookupA_eraseA_ne _ _ _ (by decide), lookupA_eraseA_ne _ _ _ (by decide),
      lookupA_eraseA_ne _ _ _ (by decide)]
    exact lookupA_eraseA_self _ _ (nodup_keysA_eraseA _ _ hnd3)
  · rw [lookupA_eraseA_ne _ _ _ (by decide), lookupA_eraseA_ne _ _ _ (by decide)]
    exact lookupA_eraseA_self _ _ (nodup_keysA_eraseA _ _ (nodup_keysA_eraseA _ _ hnd3))
  · rw [lookupA_eraseA_ne _ _ _ (by decide)]
    exact lookupA_eraseA_self _ _
      (nodup_keysA_eraseA _ _ (nodup_keysA_eraseA _ _ (nodup_keysA_eraseA _ _ hnd3)))
  · exact lookupA_eraseA_self _ _
      (nodup_keysA_eraseA _ _ (nodup_keysA_eraseA _ _
        (nodup_keysA_eraseA _ _ (nodup_keysA_eraseA _ _ hnd3))))
  · rw [lookupA_eraseA_ne _ _ _ (by decide), lookupA_eraseA_ne _ _ _ (by decide),
      lookupA_eraseA_ne _ _ _ (by decide), lookupA_eraseA_ne _ _ _ (by decide),
      lookupA_eraseA_ne _ _ _ (by decide),
      lookupA_jdbcTzStep_ne _ _ (by decide) (by decide) (by decide),
      lookupA_jdbcSchemaOptStep_ne _ _ (by decide),
      lookupA_jdbcSslStep_ne _ _ (by decide)]
  · intro htz hcs hopt
    have hcs1 : lookupA "currentSchema" (jdbcSslStep params0) = lookupA "currentSchema" params0 :=
      lookupA_jdbcSslStep_ne _ _ (by decide)
    have hopt1 : lookupA "options" (jdbcSslStep params0) = none := by
      rw [lookupA_jdbcSslStep_ne _ _ (by decide)]
      exact hopt
    have hp2 : jdbcSchemaOptStep (jdbcSslStep params0)
        = jdbcSslStep params0
          ++ [("options", "-c search_path=" ++ (lookupA "currentSchema" params0).getD "")] := by
      unfold jdbcSchemaOptStep
      rw [hcs1, if_pos hcs, setdefaultA_of_lookup_none _ _ _ hopt1]
    have hopt2 : lookupA "options" (jdbcSchemaOptStep (jdbcSslStep params0))
        = some ("-c search_path=" ++ (lookupA "currentSchema" params0).getD "") := by
      rw [hp2, lookupA_append, hopt1]
      rfl
    have hmem1 : ∀ kv ∈ jdbcSslStep params0, jdbcTzPred kv = false := by
      intro kv hkv
      unfold jdbcSslStep at hkv
      by_cases hc : lowerS ((lookupA "ssl" params0).getD "") = "false"
      · rw [if_pos hc] at hkv
        rcases mem_insertA _ _ _ _ hkv with hkv | hkv
        · exact htz kv hkv
        · rw [hkv]
          decide
      · rw [if_neg hc] at hkv
        exact htz kv hkv
    have hfind : (jdbcSchemaOptStep (jdbcSslStep params0)).find? jdbcTzPred = none := by
      rw [List.find?_eq_none]
      intro kv hkv
      rw [hp2] at hkv
      rcases List.mem_append.mp hkv with hkv | hkv
      · simp [hmem1 kv hkv]
      · rcases List.mem_singleton.mp hkv with rfl
        simp [jdbcTzPred_options]
    have hp3 : jdbcTzStep (jdbcSchemaOptStep (jdbcSslStep params0))
        = jdbcSchemaOptStep (jdbcSslStep params0) := by
      unfold jdbcTzStep
      simp only [hfind]
    rw [lookupA_eraseA_ne _ _ _ (by decide), lookupA_eraseA_ne _ _ _ (by decide),
      lookupA_eraseA_ne _ _ _ (by decide), lookupA_eraseA_ne _ _ _ (by decide),
      lookupA_eraseA_ne _ _ _ (by decide), hp3, hopt2]

/-- Closed-instance check of `normalize_jdbc_params_spec` on the bag
`{currentSchema: s1, ssl: false, characterEncoding: utf8}`. -/
theorem normalize_jdbc_params_spec_witness :
    lookupA "currentSchema"
        (normalizeJdbcParams [("currentSchema", "s1"), ("ssl", "false"), ("characterEncoding", "utf8")]).1 = none
    ∧ lookupA "ssl"
        (normalizeJdbcParams [("currentSchema", "s1"), ("ssl", "false"), ("characterEncoding", "utf8")]).1 = none
    ∧ lookupA "characterEncoding"
        (normalizeJdbcParams [("currentSchema", "s1"), ("ssl", "false"), ("characterEncoding", "utf8")]).1 = none
    ∧ lookupA "TimeZone"
        (normalizeJdbcParams [("currentSchema", "s1"), ("ssl", "false"), ("characterEncoding", "utf8")]).1 = none
    ∧ lookupA "serverTimezone"
        (normalizeJdbcParams [("currentSchema", "s1"), ("ssl", "false"), ("characterEncoding", "utf8")]).1 = none
    ∧ lookupA "search_path"
        (normalizeJdbcParams [("currentSchema", "s1"), ("ssl", "false"), ("characterEncoding", "utf8")]).1
      = lookupA "search_path" [("currentSchema", "s1"), ("ssl", "false"), ("characterEncoding", "utf8")]
    ∧ ((∀ kv ∈ [("currentSchema", "s1"), ("ssl", "false"), ("characterEncoding", "utf8")],
          jdbcTzPred kv = false) →
        truthy (lookupA "currentSchema"
          [("currentSchema", "s1"), ("ssl", "false"), ("characterEncoding", "utf8")]) = true →
        lookupA "options" [("currentSchema", "s1"), ("ssl", "false"), ("characterEncoding", "utf8")] = none →
        lookupA "options"
            (normalizeJdbcParams [("currentSchema", "s1"), ("ssl", "false"), ("characterEncoding", "utf8")]).1
          = some ("-c search_path=" ++ (lookupA "currentSchema"
              [("currentSchema", "s1"), ("ssl", "false"), ("characterEncoding", "utf8")]).getD "")) :=
  normalize_jdbc_params_spec
    [("currentSchema", "s1"), ("ssl", "false"), ("characterEncoding", "utf8")] (by decide)

/-- C10.  A descriptor whose host segment carries a port component that
`int()` rejects parses without failure: credential/host parsing returns
the host unchanged and `port = None` (shown for every colon-free host and
`@`-free unparsable port, and concretely for the full descriptor
`jdbc:postgresql://h:abc/db`). -/
theorem parse_jdbc_url_invalid_port :
    (∀ (h p : List Char), ':' ∉ h → '@' ∉ h → '@' ∉ p →
      pyInt (String.mk p) = none →
      parseNetloc (h ++ ':' :: p) = (none, none, some (String.mk h), none))
    ∧ parse_jdbc_url "jdbc:postgresql://h:abc/db"
        = .ok { conn_type := "postgresql", host := some "h", port := none, database := "db",
                username := none, password := none, params := [], schema := none } := by
  constructor
  · intro h p hc ha1 ha2 hport
    have hat : '@' ∉ h ++ ':' :: p := by
      intro hm
      rcases List.mem_append.mp hm with hm | hm
      · exact ha1 hm
      · rcases List.mem_cons.mp hm with hm | hm
        · exact absurd hm (by decide)
        · exact ha2 hm
    unfold parseNetloc
    rw [if_neg (by simp)]
    simp only [splitLast_eq_none '@' _ hat, splitFirst_append_sep ':' h p hc, hport]
  · decide

/-- Closed-instance check of `parse_jdbc_url_invalid_port` at host `h`
and port text `abc`. -/
theorem parse_jdbc_url_invalid_port_witness :
    parseNetloc (['h'] ++ ':' :: ['a', 'b', 'c'])
      = (none, none, some (String.mk ['h']), none)
    ∧ parse_jdbc_url "jdbc:postgresql://h:abc/db"
        = .ok { conn_type := "postgresql", host := some "h", port := none, database := "db",
                username := none, password := none, params := [], schema := none } :=
  ⟨parse_jdbc_url_invalid_port.1 ['h'] ['a', 'b', 'c']
      (by decide) (by decide) (by decide) (by decide),
   parse_jdbc_url_invalid_port.2⟩

theorem candName_inj (base : String) (i j : Nat) (h : candName base i = candName base j) :
    i = j := by
  unfold candName at h
  have hd := congrArg String.data h
  simp only [String.data_append, List.append_assoc] at hd
  have h1 := List.append_cancel_left hd
  have h2 := List.append_cancel_left h1
  have h3 := List.append_cancel_right h2
  exact natRepr_injective h3

theorem findFreeFrom_shape (taken : List String) (base : String) :
    ∀ (fuel i : Nat), ∃ m, i ≤ m ∧ findFreeFrom taken base fuel i = candName base m := by
  intro fuel
  induction fuel with
  | zero => intro i; exact ⟨i, le_refl i, rfl⟩
  | succ fuel ih =>
    intro i
    by_cases h : candName base i ∈ taken
    · obtain ⟨m, hm, he⟩ := ih (i + 1)
      exact ⟨m, by omega, by simp only [findFreeFrom, if_pos h]; exact he⟩
    · exact ⟨i, le_refl i, by simp only [findFreeFrom, if_neg h]⟩

theorem findFreeFrom_erase (taken : List String) (base x : String) :
    ∀ (fuel i : Nat), (∀ m, i ≤ m → candName base m ≠ x) →
      findFreeFrom (taken.erase x) base fuel i = findFreeFrom taken base fuel i := by
  intro fuel
  induction fuel with
  | zero => intro i _; rfl
  | succ fuel ih =>
    intro i hne
    have hmem : candName base i ∈ taken.erase x ↔ candName base i ∈ taken :=
      List.mem_erase_of_ne (hne i (le_refl i))
    by_cases h : candName base i ∈ taken
    · simp only [findFreeFrom, if_pos h, if_pos (hmem.mpr h)]
      exact ih (i + 1) (fun m hm => hne m (by omega))
    · simp only [findFreeFrom, if_neg h, if_neg (fun hc => h (hmem.mp hc))]

theorem findFreeFrom_not_mem (base : String) :
    ∀ (fuel : Nat) (taken : List String) (i : Nat), taken.length < fuel →
      findFreeFrom taken base fuel i ∉ taken := by
  intro fuel
  induction fuel with
  | zero => intro taken i h; omega
  | succ fuel ih =>
    intro taken i hlen
    by_cases h : candName base i ∈ taken
    · simp only [findFreeFrom, if_pos h]
      have hlenpos : 0 < taken.length := List.length_pos_of_mem h
      have herase : (taken.erase (candName base i)).length = taken.length - 1 :=
        List.length_erase_of_mem h
      have hfresh : findFreeFrom (taken.erase (candName base i)) base fuel (i + 1)
          ∉ taken.erase (candName base i) := ih _ (i + 1) (by omega)
      have hsame : findFreeFrom (taken.erase (candName base i)) base fuel (i + 1)
          = findFreeFrom taken base fuel (i + 1) :=
        findFreeFrom_erase taken base (candName base i) fuel (i + 1)
          (by intro m hm hcand
              have := candName_inj base m i hcand
              omega)
      obtain ⟨mm, hmm, hshape⟩ := findFreeFrom_shape taken base fuel (i + 1)
      intro hcontra
      apply hfresh
      rw [hsame, hshape]
      rw [hshape] at hcontra
      refine (List.mem_erase_of_ne ?_).mpr hcontra
      intro hcand
      have := candName_inj base mm i hcand
      omega
    · simp only [findFreeFrom, if_neg h]
      exact h

theorem uniqueName_not_mem (taken : List String) (base : String) :
    uniqueName taken base ∉ taken := by
  unfold uniqueName
  by_cases h : base ∈ taken
  · rw [if_pos h]
    exact findFreeFrom_not_mem base (taken.length + 1) taken 1 (by omega)
  · rw [if_neg h]
    exact h

theorem mem_insertSorted (x y : String) (l : List String) :
    y ∈ insertSorted x l ↔ y = x ∨ y ∈ l := by
  induction l with
  | nil => simp [insertSorted]
  | cons z t ih =>
    simp only [insertSorted]
    by_cases h : leChars x.data z.data
    · rw [if_pos h]
      simp
    · rw [if_neg h]
      simp only [List.mem_cons, ih]
      tauto

theorem mem_sortS (x : String) (l : List String) : x ∈ sortS l ↔ x ∈ l := by
  induction l with
  | nil => simp [sortS]
  | cons c t ih =>
    show x ∈ insertSorted c (sortS t) ↔ x ∈ c :: t
    rw [mem_insertSorted]
    simp only [List.mem_cons, ih]

/-- C3 counterexample.  With a persisted config named `SQLite: a.db` and
no live engine (the state right after a restart, since engines are built
lazily), `add_sqlite_connection` for a different file with the same
basename returns the same, un-disambiguated name and replaces the
persisted config: its collision check consults only the live-engines
map, contradicting the claim that no persisted config is ever
overwritten. -/
theorem add_sqlite_connection_overwrites_config :
    add_sqlite_connection
        { engines := []
          configs := [("SQLite: a.db", { ctype := "sqlite", path := some "/old/a.db" })] }
        "/new/a.db" true
      = .ok ({ engines := [("SQLite: a.db", { url := some "sqlite:////new/a.db" })]
               configs := [("SQLite: a.db", { ctype := "sqlite", path := some "/new/a.db" })] },
             "SQLite: a.db")
    ∧ ({ ctype := "sqlite", path := some "/new/a.db" } : ConfigV)
        ≠ { ctype := "sqlite", path := some "/old/a.db" } :=
  ⟨by decide, by decide⟩

/-- C3 (amended).  `add_connection` disambiguates the display name
against persisted configs and live engines together, so the name it
returns is fresh for both maps and no existing entry of either map is
ever overwritten; `add_sqlite_connection`, however, disambiguates only
against live engine names — the name it returns is fresh for the
live-engines map (and entries at other names are untouched), but a
persisted config without a live engine can be overwritten (see the
counterexample). -/
theorem registry_name_disambiguation :
    (∀ (m : ConnectionManager) (name conn_type : String) (kwargs : List (String × String))
       (m' : ConnectionManager) (dn : String),
       add_connection m name conn_type kwargs = .ok (m', dn) →
       dn ∉ keysA m.engines ∧ dn ∉ keysA m.configs
       ∧ ∀ k, k ≠ dn → lookupA k m'.engines = lookupA k m.engines
           ∧ lookupA k m'.configs = lookupA k m.configs)
    ∧ (∀ (m : ConnectionManager) (path : String) (pathExists : Bool)
         (m' : ConnectionManager) (nm : String),
         add_sqlite_connection m path pathExists = .ok (m', nm) →
         nm ∉ keysA m.engines
         ∧ ∀ k, k ≠ nm → lookupA k m'.engines = lookupA k m.engines
             ∧ lookupA k m'.configs = lookupA k m.configs) := by
  constructor
  · intro m name conn_type kwargs m' dn h
    unfold add_connection at h
    cases hd : resolveDriver conn_type (normalizeAliases kwargs) with
    | error e =>
      simp only [hd] at h
      cases h
    | ok di =>
      simp only [hd] at h
      cases hp : resolvePort (lookupA "port" (normalizeAliases kwargs)) di.2.2 with
      | error e =>
        simp only [hp] at h
        cases h
      | ok portv =>
        simp only [hp, Except.ok.injEq, Prod.mk.injEq] at h
        obtain ⟨h1, h2⟩ := h
        subst h2
        subst h1
        have hfresh := uniqueName_not_mem (keysA m.engines ++ keysA m.configs) name
        refine ⟨fun hm => hfresh (List.mem_append_left _ hm),
                fun hm => hfresh (List.mem_append_right _ hm), ?_⟩
        intro k hk
        exact ⟨lookupA_insertA_ne _ _ _ _ hk, lookupA_insertA_ne _ _ _ _ hk⟩
  · intro m path pathExists m' nm h
    unfold add_sqlite_connection at h
    by_cases hp : ¬ pathExists
    · rw [if_pos hp] at h
      cases h
    · rw [if_neg hp] at h
      simp only [Except.ok.injEq, Prod.mk.injEq] at h
      obtain ⟨h1, h2⟩ := h
      subst h2
      subst h1
      refine ⟨uniqueName_not_mem (keysA m.engines) _, ?_⟩
      intro k hk
      exact ⟨lookupA_insertA_ne _ _ _ _ hk, lookupA_insertA_ne _ _ _ _ hk⟩

/-- Closed-instance check of `registry_name_disambiguation`: adding a
server connection named `db` while `db` is a live engine yields the
fresh name `db (1)` and leaves the existing entry alone; adding a SQLite
file into an empty registry yields its basename-derived name. -/
theorem registry_name_disambiguation_witness :
    (("db (1)" : String) ∉ keysA wMgr0.engines
      ∧ ("db (1)" : String) ∉ keysA wMgr0.configs
      ∧ ∀ k, k ≠ "db (1)" →
          lookupA k wMgr1.engines = lookupA k wMgr0.engines
          ∧ lookupA k wMgr1.configs = lookupA k wMgr0.configs)
    ∧ (("SQLite: b.db" : String) ∉ keysA wMgrS0.engines
      ∧ ∀ k, k ≠ "SQLite: b.db" →
          lookupA k wMgrS1.engines = lookupA k wMgrS0.engines
          ∧ lookupA k wMgrS1.configs = lookupA k wMgrS0.configs) :=
  ⟨registry_name_disambiguation.1 wMgr0 "db" "mysql" [] wMgr1 "db (1)" (by decide),
   registry_name_disambiguation.2 wMgrS0 "/a/b.db" true wMgrS1 "SQLite: b.db" (by decide)⟩

/-- C7.  `remove_connection` disposes the live handle when present and
deletes the persisted config; removing an absent name returns the
registry unchanged and raises nothing; after a removal the name is gone
from `list_connections` and `get_connection` fails with the typed
`Connection '…' is not available` error for every reconstruction outcome,
never returning a stale handle. -/
theorem remove_connection_spec (m : ConnectionManager) (name : String)
    (hne : (keysA m.engines).Nodup) (hnc : (keysA m.configs).Nodup) :
    (name ∉ keysA m.engines → name ∉ keysA m.configs →
        remove_connection m name = (m, []))
    ∧ (∀ e, lookupA name m.engines = some e → (remove_connection m name).2 = [e])
    ∧ name ∉ list_connections (remove_connection m name).1
    ∧ ∀ reconstruct, get_connection (remove_connection m name).1 name reconstruct
        = .error ("Connection '" ++ name ++ "' is not available (engine was not created)") := by
  refine ⟨?_, ?_, ?_, ?_⟩
  · intro h1 h2
    unfold remove_connection
    rw [eraseA_of_not_mem _ _ h1, eraseA_of_not_mem _ _ h2,
      lookupA_eq_none_of_not_mem _ _ h1]
  · intro e he
    unfold remove_connection
    rw [he]
  · unfold list_connections remove_connection
    rw [mem_sortS, List.mem_dedup]
    intro hmem
    rcases List.mem_append.mp hmem with hm | hm
    · exact keysA_eraseA_not_mem name m.configs hnc hm
    · exact keysA_eraseA_not_mem name m.engines hne hm
  · intro reconstruct
    unfold get_connection remove_connection
    rw [lookupA_eraseA_self _ _ hne, lookupA_eraseA_self _ _ hnc]

/-- Closed-instance check of `remove_connection_spec`: removing `a`
disposes its engine, drops it from the listing, makes `get_connection`
fail, and removing the absent `z` is a no-op. -/
theorem remove_connection_spec_witness :
    (remove_connection wMgrR "a").2 = [{ url := some "u" }]
    ∧ ("a" : String) ∉ list_connections (remove_connection wMgrR "a").1
    ∧ get_connection (remove_connection wMgrR "a").1 "a" (fun _ => none)
        = .error ("Connection '" ++ "a" ++ "' is not available (engine was not created)")
    ∧ remove_connection wMgrR "z" = (wMgrR, []) :=
  ⟨(remove_connection_spec wMgrR "a" (by decide) (by decide)).2.1
      { url := some "u" } (by decide),
   (remove_connection_spec wMgrR "a" (by decide) (by decide)).2.2.1,
   (remove_connection_spec wMgrR "a" (by decide) (by decide)).2.2.2 (fun _ => none),
   (remove_connection_spec wMgrR "z" (by decide) (by decide)).1 (by decide) (by decide)⟩

theorem joinNl_cons (l : List Char) (ls : List (List Char)) (h : ls ≠ []) :
    joinNl (l :: ls) = l ++ '\n' :: joinNl ls := by
  cases ls with
  | nil => exact absurd rfl h
  | cons l2 rest => rfl

theorem searchMLFrom_no_nl (f : List Char → Option (List Char)) (l : List Char)
    (h : ('\n' : Char) ∉ l) : searchMLFrom f l = none := by
  induction l with
  | nil => rfl
  | cons c t ih =>
    simp only [List.mem_cons] at h
    push_neg at h
    have hc : ¬ (c = '\n') := fun hx => h.1 hx.symm
    simp only [searchMLFrom, if_neg hc]
    exact ih h.2

theorem searchMLFrom_skip (f : List Char → Option (List Char)) (l t : List Char)
    (h : ('\n' : Char) ∉ l) : searchMLFrom f (l ++ '\n' :: t) = searchML f t := by
  induction l with
  | nil =>
    show searchMLFrom f ('\n' :: t) = searchML f t
    simp only [searchMLFrom, if_pos]
    cases hf : f t with
    | some r => simp only [searchML, hf]
    | none => simp only [searchML, hf]
  | cons c l' ih =>
    simp only [List.mem_cons] at h
    push_neg at h
    have hc : ¬ (c = '\n') := fun hx => h.1 hx.symm
    rw [List.cons_append]
    simp only [searchMLFrom, if_neg hc]
    exact ih h.2

theorem searchML_found (f : List Char → Option (List Char))
    (pre rl : List (List Char)) (v : List Char)
    (hnl : ∀ l ∈ pre, ('\n' : Char) ∉ l) (hrl : rl ≠ [])
    (hfail : ∀ i, i < pre.length → f (joinNl (pre.drop i ++ rl)) = none)
    (hok : f (joinNl rl) = some v) :
    searchML f (joinNl (pre ++ rl)) = some v := by
  induction pre with
  | nil =>
    simp only [List.nil_append]
    unfold searchML
    rw [hok]
  | cons l pre' ih =>
    have hne : pre' ++ rl ≠ [] := by
      simp only [ne_eq, List.append_eq_nil]
      exact fun hx => hrl hx.2
    have hjoin : joinNl ((l :: pre') ++ rl) = l ++ '\n' :: joinNl (pre' ++ rl) := by
      rw [List.cons_append]
      exact joinNl_cons l (pre' ++ rl) hne
    have h0 : f (joinNl ((l :: pre') ++ rl)) = none := by
      have := hfail 0 (by simp)
      simpa using this
    unfold searchML
    simp only [h0]
    rw [hjoin, searchMLFrom_skip f l _ (hnl l (by simp))]
    exact ih (fun x hx => hnl x (List.mem_cons_of_mem _ hx))
      (fun i hi => by
        have := hfail (i + 1) (by simpa using Nat.succ_lt_succ hi)
        simpa using this)

theorem searchML_none (f : List Char → Option (List Char)) (ls : List (List Char))
    (hnl : ∀ l ∈ ls, ('\n' : Char) ∉ l) (hne : ls ≠ [])
    (hfail : ∀ i, i < ls.length → f (joinNl (ls.drop i)) = none) :
    searchML f (joinNl ls) = none := by
  induction ls with
  | nil => exact absurd rfl hne
  | cons l rest ih =>
    have h0 : f (joinNl (l :: rest)) = none := by
      have := hfail 0 (by simp)
      simpa using this
    unfold searchML
    simp only [h0]
    cases rest with
    | nil =>
      show searchMLFrom f (joinNl [l]) = none
      exact searchMLFrom_no_nl f l (hnl l (by simp))
    | cons l2 rest2 =>
      rw [joinNl_cons l (l2 :: rest2) (by simp),
        searchMLFrom_skip f l _ (hnl l (by simp))]
      exact ih (fun x hx => hnl x (List.mem_cons_of_mem _ hx)) (by simp)
        (fun i hi => by
          have := hfail (i + 1) (by simpa using Nat.succ_lt_succ hi)
          simpa using this)

theorem subMLAux_skip (f : List Char → Option (List Char)) (l t : List Char)
    (h : ('\n' : Char) ∉ l) : subMLAux f (l ++ '\n' :: t) = l ++ '\n' :: subML f t := by
  induction l with
  | nil =>
    show subMLAux f ('\n' :: t) = '\n' :: subML f t
    simp only [subMLAux, if_pos]
    cases hf : f t with
    | some r => simp only [subML, hf]
    | none => simp only [subML, hf]
  | cons c l' ih =>
    simp only [List.mem_cons] at h
    push_neg at h
    have hc : ¬ (c = '\n') := fun hx => h.1 hx.symm
    rw [List.cons_append]
    simp only [subMLAux, if_neg hc]
    rw [ih h.2]
    rfl

theorem subML_found (f : List Char → Option (List Char))
    (pre rl : List (List Char)) (rest : List Char)
    (hnl : ∀ l ∈ pre, ('\n' : Char) ∉ l) (hrl : rl ≠ [])
    (hfail : ∀ i, i < pre.length → f (joinNl (pre.drop i ++ rl)) = none)
    (hok : f (joinNl rl) = some rest) :
    subML f (joinNl (pre ++ rl)) = joinNl (pre ++ [rest]) := by
  induction pre with
  | nil =>
    simp only [List.nil_append]
    unfold subML
    rw [hok]
    rfl
  | cons l pre' ih =>
    have hne : pre' ++ rl ≠ [] := by
      simp only [ne_eq, List.append_eq_nil]
      exact fun hx => hrl hx.2
    have hjoin : joinNl ((l :: pre') ++ rl) = l ++ '\n' :: joinNl (pre' ++ rl) := by
      rw [List.cons_append]
      exact joinNl_cons l (pre' ++ rl) hne
    have h0 : f (joinNl ((l :: pre') ++ rl)) = none := by
      have := hfail 0 (by simp)
      simpa using this
    unfold subML
    simp only [h0]
    rw [hjoin, subMLAux_skip f l _ (hnl l (by simp))]
    have hrec := ih (fun x hx => hnl x (List.mem_cons_of_mem _ hx))
      (fun i hi => by
        have := hfail (i + 1) (by simpa using Nat.succ_lt_succ hi)
        simpa using this)
    rw [hrec]
    rw [List.cons_append, joinNl_cons l (pre' ++ [rest]) (by simp)]

theorem joinNl_append_join (pre post : List (List Char)) (hpost : post ≠ []) :
    joinNl (pre ++ [joinNl post]) = joinNl (pre ++ post) := by
  induction pre with
  | nil => rfl
  | cons l pre' ih =>
    rw [List.cons_append, List.cons_append,
      joinNl_cons l (pre' ++ [joinNl post]) (by simp),
      joinNl_cons l (pre' ++ post)
        (by simp only [ne_eq, List.append_eq_nil]; exact fun hx => hpost hx.2),
      ih]

/-- C6 counterexample.  A `-- connection:` directive placed after
non-directive SQL text is recognised and stripped (the `re.MULTILINE`
anchors match at the start of every line), contradicting the claim that
only a leading directive line is recognised. -/
theorem directive_recognized_after_sql_text :
    extractConnectionDirective "SELECT 1;\n-- connection: foo"
      = (some "foo", "SELECT 1;\n")
    ∧ (extractConnectionDirective "SELECT 1;\n-- connection: foo").1 ≠ none :=
  ⟨by decide, by decide⟩

/-- C6 (amended).  Connection-directive extraction recognises a directive
— `-- connection: NAME` or `USE CONNECTION NAME;` — case-insensitively
anchored at the start of ANY line of the text, with the comment form
taking precedence, and strips the leftmost match of the corresponding
removal pattern exactly once.  When no line-start position before the
directive matches the form's search or removal pattern (in particular no
whitespace-only line immediately precedes the directive, since the
patterns' `\s` runs cross newlines and would absorb such lines into the
match) and the removal pattern's match at the directive's position
consumes exactly the directive line with its newline, the remaining
lines are returned unchanged. -/
theorem extract_connection_directive_spec :
    (∀ (pre post : List (List Char)) (dline name : List Char),
      (∀ l ∈ pre, ('\n' : Char) ∉ l) →
      (∀ i, i < pre.length →
        searchCommentAt (joinNl (pre.drop i ++ dline :: post)) = none) →
      (∀ i, i < pre.length →
        subCommentAt (joinNl (pre.drop i ++ dline :: post)) = none) →
      searchCommentAt (joinNl (dline :: post)) = some name →
      subCommentAt (joinNl (dline :: post)) = some (joinNl post) →
      post ≠ [] →
      extractConnectionDirective (String.mk (joinNl (pre ++ dline :: post)))
        = (some (String.mk name), String.mk (joinNl (pre ++ post))))
    ∧ (∀ (pre post : List (List Char)) (dline name : List Char),
      (∀ l ∈ pre ++ dline :: post, ('\n' : Char) ∉ l) →
      (∀ i, i < (pre ++ dline :: post).length →
        searchCommentAt (joinNl ((pre ++ dline :: post).drop i)) = none) →
      (∀ i, i < pre.length →
        searchUseAt (joinNl (pre.drop i ++ dline :: post)) = none) →
      (∀ i, i < pre.length →
        subUseAt (joinNl (pre.drop i ++ dline :: post)) = none) →
      searchUseAt (joinNl (dline :: post)) = some name →
      subUseAt (joinNl (dline :: post)) = some (joinNl post) →
      post ≠ [] →
      extractConnectionDirective (String.mk (joinNl (pre ++ dline :: post)))
        = (some (String.mk name), String.mk (joinNl (pre ++ post)))) := by
  constructor
  · intro pre post dline name hnl hsf hbf hs hb hpost
    unfold extractConnectionDirective
    have hfound := searchML_found searchCommentAt pre (dline :: post) name hnl
      (by simp) hsf hs
    have hsub := subML_found subCommentAt pre (dline :: post) (joinNl post) hnl
      (by simp) hbf hb
    simp only [show (String.mk (joinNl (pre ++ dline :: post))).data
        = joinNl (pre ++ dline :: post) from rfl, hfound, hsub,
      joinNl_append_join pre post hpost]
  · intro pre post dline name hnl hcf husf hubf hus hub hpost
    unfold extractConnectionDirective
    have hnone := searchML_none searchCommentAt (pre ++ dline :: post) hnl
      (by simp) hcf
    have hfound := searchML_found searchUseAt pre (dline :: post) name
      (fun l hl => hnl l (List.mem_append_left _ hl)) (by simp) husf hus
    have hsub := subML_found subUseAt pre (dline :: post) (joinNl post)
      (fun l hl => hnl l (List.mem_append_left _ hl)) (by simp) hubf hub
    simp only [show (String.mk (joinNl (pre ++ dline :: post))).data
        = joinNl (pre ++ dline :: post) from rfl, hnone, hfound, hsub,
      joinNl_append_join pre post hpost]

/-- Closed-instance check of `extract_connection_directive_spec`: both
directive forms are recognised and stripped from the second line of a
three-line script. -/
theorem extract_connection_directive_spec_witness :
    extractConnectionDirective
        (String.mk (joinNl (["SELECT 1;".data] ++ "-- connection: c2".data :: ["SELECT 2;".data])))
      = (some (String.mk "c2".data), String.mk (joinNl (["SELECT 1;".data] ++ ["SELECT 2;".data])))
    ∧ extractConnectionDirective
        (String.mk (joinNl (["SELECT 1;".data] ++ "USE CONNECTION c3;".data :: ["SELECT 3;".data])))
      = (some (String.mk "c3".data), String.mk (joinNl (["SELECT 1;".data] ++ ["SELECT 3;".data]))) :=
  ⟨extract_connection_directive_spec.1 ["SELECT 1;".data] ["SELECT 2;".data]
      "-- connection: c2".data "c2".data (by decide) (by decide) (by decide)
      (by decide) (by decide) (by decide),
   extract_connection_directive_spec.2 ["SELECT 1;".data] ["SELECT 3;".data]
      "USE CONNECTION c3;".data "c3".data (by decide) (by decide) (by decide)
      (by decide) (by decide) (by decide) (by decide)⟩

end CatDb
